import Mathlib

/-!
# The native Linux USB backend of the MTP client: `mtp/backend/linux/usb/Device.cpp`

A shallow embedding of `mtp::usb::Device` and of its nested `Device::Urb`:
the URB constructor and its buffer sizing, `Send`, `Recv`, `SetContinuationFlag`,
`Reap`, `Submit`, `WriteBulk`, `ReadBulk`, `WriteControl` and `ProcessControl`.

The code talks to three things it does not own: the kernel (through `ioctl`,
`poll` and `gettimeofday`), an input byte stream and an output byte stream.
Each of them is a value of the model:

* the kernel is a *script*: for every kind of system call, the list of the
  answers the successive calls will get, and a *log* of the requests it has
  received so far, in order;
* a stream is its bytes together with the list of the sizes its successive
  calls are willing to transfer.

Every function of the source is a function from the state before the call to
the result of the call and the state after it.  An exception is the `error`
side of `Except`.  Every statement is about runs in which each system call
returns, and about one thread of control: during a call no other thread
touches the device, its map of pending URBs or its control queue.

A loop that the source leaves only on a condition (`do ... while` in `WriteBulk`
and `ReadBulk`) takes the number of iterations it may run; `while (true)` in
`Submit` and the loop of `ProcessControl` are by recursion on the kernel's script
and on the queue.

"No submission or control transfer raises" is a condition on the device and on the
kernel's script: `Device.cooperative` (no `USBDEVFS_SUBMITURB` refused, no queued
control transfer that throws) together with a script that begins with successful
reapings, enough of them of the URB of the transfer.
-/

set_option autoImplicit false

namespace mtp.usb

/-! ## Constants of the kernel interface

The header `linux/usbdevice_fs.h` that `Device.cpp` includes is not among the
translated sources.  The specification names the four URB types (control, bulk,
interrupt, isochronous) and the flag `BULK_CONTINUATION`; their values below are the
ones of the Linux user API, as is the value of `EAGAIN`. -/

/-- Modelled from the spec: the URB type isochronous, `USBDEVFS_URB_TYPE_ISO` of
`linux/usbdevice_fs.h`. -/
def USBDEVFS_URB_TYPE_ISO : Nat := 0

/-- Modelled from the spec: the URB type interrupt, `USBDEVFS_URB_TYPE_INTERRUPT` of
`linux/usbdevice_fs.h`. -/
def USBDEVFS_URB_TYPE_INTERRUPT : Nat := 1

/-- Modelled from the spec: the URB type control, `USBDEVFS_URB_TYPE_CONTROL` of
`linux/usbdevice_fs.h`. -/
def USBDEVFS_URB_TYPE_CONTROL : Nat := 2

/-- Modelled from the spec: the URB type bulk, `USBDEVFS_URB_TYPE_BULK` of
`linux/usbdevice_fs.h`. -/
def USBDEVFS_URB_TYPE_BULK : Nat := 3

/-- Modelled from the spec: the flag `BULK_CONTINUATION` of a URB,
`USBDEVFS_URB_BULK_CONTINUATION` of `linux/usbdevice_fs.h` (bit 2 of `flags`). -/
def USBDEVFS_URB_BULK_CONTINUATION : Nat := 4

/-- The error number `EAGAIN` of `errno.h`. -/
def EAGAIN : Int := 11

/-! ## Exceptions -/

/-- Modelled from the spec: the exception classes `usb::Exception`
(`usb/Exception.h`) and `TimeoutException` (`mtp/usb/TimeoutException.h`), which are
declared outside the translated sources.  The type lists the exceptions thrown in
the functions translated here, each with its `what()` text; like
`std::runtime_error` the two classes derive from `std::exception`, so that a
`catch (const std::exception &)` handler catches every constructor of this type. -/
inductive Error where
  | Exception (what : String)
  | TimeoutException (what : String)
  | runtime_error (what : String)
deriving DecidableEq, Repr

deriving instance DecidableEq for Except

/-! ## Data -/

/-- Modelled from the spec: the kernel structure `usbdevfs_urb` of
`linux/usbdevice_fs.h`, reduced to the fields that `Device.cpp` reads or writes. -/
structure usbdevfs_urb where
  type : Nat
  endpoint : Nat
  flags : Nat
  buffer_length : Nat
  actual_length : Nat
deriving DecidableEq, Repr

/-- Modelled from the spec: the kernel structure `usbdevfs_ctrltransfer` of
`linux/usbdevice_fs.h`.  The field `data` is a pointer in the source; the model
holds the bytes it points to. -/
structure usbdevfs_ctrltransfer where
  bRequestType : Nat
  bRequest : Nat
  wValue : Nat
  wIndex : Nat
  wLength : Nat
  timeout : Nat
  data : List Nat
deriving DecidableEq, Repr

/-- Modelled from the spec: the class `Endpoint` (`usb/Endpoint.h`, outside the
translated sources), reduced to what `Device::Urb` asks of it: `GetAddress()` and
`GetMaxPacketSize()`.  A USB max-packet-size fits 16 bits, so that the products
formed with it overflow no machine integer. -/
structure Endpoint where
  Address : Nat
  MaxPacketSize : Nat
deriving DecidableEq, Repr

/-- The nested `struct Device::Urb`.  `Addr` is the address of the object's
`KernelUrb` member: it is the pointer the kernel is given on submission and
gives back on reaping, and it identifies the `Urb` object. -/
structure Urb where
  Addr : Nat
  Fd : Int
  Buffer : List Nat
  KernelUrb : usbdevfs_urb
deriving DecidableEq, Repr

/-- The closure that `Device::WriteControl` pushes on the control queue: the
lambda with its captures `fd`, `ctrl` and `interruptCurrentTransaction`. -/
structure ControlClosure where
  fd : Int
  ctrl : usbdevfs_ctrltransfer
  interruptCurrentTransaction : Bool
deriving DecidableEq, Repr

/-- One request received by the kernel (or, for `REAPFAILED`, one call of
`Device::Reap` that threw). -/
inductive Event where
  /-- The ioctl `USBDEVFS_SUBMITURB` on the URB at `addr`, accepted or not, with the
  contents of its `usbdevfs_urb` and the first `buffer_length` bytes of its buffer. -/
  | SUBMITURB (addr : Nat) (urb : usbdevfs_urb) (payload : List Nat)
  /-- A call of `Device::Reap` that returned the pointer `addr`; `data` is what the
  device delivered for that URB. -/
  | REAPURB (addr : Nat) (data : List Nat)
  /-- A call of `Device::Reap` that threw `e`. -/
  | REAPFAILED (e : Error)
  /-- The ioctl `USBDEVFS_DISCARDURB` on the URB at `addr`. -/
  | DISCARDURB (addr : Nat)
  /-- The ioctl `USBDEVFS_CONTROL`. -/
  | CONTROL (fd : Int) (ctrl : usbdevfs_ctrltransfer)
deriving DecidableEq, Repr

/-- The answers of the system calls made by one call of `Device::Reap`: the
return values of the two `gettimeofday` calls, of `poll` and of the ioctl
`USBDEVFS_REAPURBNDELAY`, the `errno` it leaves, the URB pointer it stores and the
bytes the device delivered for that URB. -/
structure ReapCall where
  gettimeofday1 : Int
  poll : Int
  gettimeofday2 : Int
  ioctl : Int
  errno : Int
  urb : Nat
  data : List Nat
deriving DecidableEq, Repr

/-- The answer of an `ioctl` call: its return value and the `errno` it leaves. -/
structure IoctlResult where
  r : Int
  errno : Int
deriving DecidableEq, Repr

/-- The state of `Device` together with the kernel it talks to.

* `_fd`, `_urbs`, `_controls` are the members of the class.  `_urbs` maps the
  address of a `KernelUrb` to the `Urb` that contains it; the value is determined
  by the key, and the model keeps the keys.  `_controls` is the queue, front
  first.
* `submitResults`, `reapCalls`, `controlResults` are the kernel's script: the
  answers of the successive `USBDEVFS_SUBMITURB` ioctls, `Reap` calls and
  `USBDEVFS_CONTROL` ioctls.  Past the end of its script the kernel accepts a
  submission, has no completed URB to reap (`EAGAIN`) and completes a control
  transfer.
* `log` is the list of requests received by the kernel, oldest first. -/
structure Device where
  _fd : Int
  _urbs : List Nat
  _controls : List ControlClosure
  submitResults : List Int
  reapCalls : List ReapCall
  controlResults : List IoctlResult
  log : List Event
deriving DecidableEq, Repr

/-- Modelled from the spec: an input stream (`IObjectInputStream`, declared outside
the translated sources; `InputStream{read(buf)→n}` in the specification).  It is
the bytes it still holds and, for its successive `Read` calls, the most bytes each
is willing to return.  Past the end of `limits` a read returns as much as is asked
for and available. -/
structure InputStream where
  data : List Nat
  limits : List Nat
deriving DecidableEq, Repr

/-- Modelled from the spec: an output stream (`IObjectOutputStream`, declared
outside the translated sources; `OutputStream{write(buf)→n}` in the
specification).  It is the bytes written to it so far and, for its successive
`Write` calls, the most bytes each is willing to accept.  Past the end of `accept`
a write takes everything it is given. -/
structure OutputStream where
  written : List Nat
  accept : List Nat
deriving DecidableEq, Repr

/-- Modelled from the spec: the call `inputStream->Read(data, size)`.  It gives the
bytes stored at `data`, whose number is the return value and is at most `size`, and
the stream afterwards. -/
def InputStream.Read (s : InputStream) (size : Nat) : List Nat × InputStream :=
  let n := min size (s.limits.headD size)
  (s.data.take n, { data := s.data.drop n, limits := s.limits.tail })

/-- Modelled from the spec: the call `outputStream->Write(data, size)` on the
`size` bytes `bytes` at `data`.  It gives the number of bytes written, which is the
return value, and the stream afterwards. -/
def OutputStream.Write (o : OutputStream) (bytes : List Nat) : Nat × OutputStream :=
  let n := min bytes.length (o.accept.headD bytes.length)
  (n, { written := o.written ++ bytes.take n, accept := o.accept.tail })

/-! ## `Device::Urb` -/

/-- The function `Urb::PacketsPerBuffer`. -/
def Urb.PacketsPerBuffer (type : Nat) : Nat :=
  if type = USBDEVFS_URB_TYPE_BULK then 1024 else 1

/-- The constructor `Urb::Urb(fd, type, ep)`; `addr` is the address of the new
object.  The buffer is zero-filled, and `KernelUrb()` zeroes the kernel URB before
the four assignments. -/
def Urb.new (addr : Nat) (fd : Int) (type : Nat) (ep : Endpoint) : Urb :=
  let Buffer := List.replicate (Urb.PacketsPerBuffer type * ep.MaxPacketSize) 0
  { Addr := addr
    Fd := fd
    Buffer := Buffer
    KernelUrb :=
      { type := type
        endpoint := ep.Address
        flags := 0
        buffer_length := Buffer.length
        actual_length := 0 } }

/-- The bytes of the buffer a submission hands to the kernel: the first
`buffer_length` ones. -/
def Urb.payload (u : Urb) : List Nat :=
  u.Buffer.take u.KernelUrb.buffer_length

/-- The function `Urb::Submit`: the ioctl `USBDEVFS_SUBMITURB` behind the `IOCTL`
guard, which throws when the ioctl returns a negative value. -/
def Urb.Submit (u : Urb) (d : Device) : Except Error Unit × Device :=
  let r := d.submitResults.headD 0
  let d := { d with
    submitResults := d.submitResults.tail
    log := d.log ++ [Event.SUBMITURB u.Addr u.KernelUrb u.payload] }
  if r < 0 then
    (.error (.Exception "ioctl(Fd, USBDEVFS_SUBMITURB, &KernelUrb)"), d)
  else
    (.ok (), d)

/-- The function `Urb::Discard`: the ioctl `USBDEVFS_DISCARDURB`; its failure is
only printed. -/
def Urb.Discard (u : Urb) (d : Device) : Device :=
  { d with log := d.log ++ [Event.DISCARDURB u.Addr] }

/-- The function `Urb::Send(inputStream)`: reads up to `Buffer.size()` bytes from
the stream to the start of the buffer and sets `buffer_length` to the number read,
which it returns. -/
def Urb.Send (u : Urb) (inputStream : InputStream) : Nat × Urb × InputStream :=
  let (bytes, inputStream) := inputStream.Read u.Buffer.length
  let r := bytes.length
  (r, { u with
        Buffer := bytes ++ u.Buffer.drop r
        KernelUrb := { u.KernelUrb with buffer_length := r } },
   inputStream)

/-- The function `Urb::Recv(outputStream)`: writes the first `actual_length` bytes
of the buffer to the stream and returns what the stream returns. -/
def Urb.Recv (u : Urb) (outputStream : OutputStream) : Nat × OutputStream :=
  outputStream.Write (u.Buffer.take u.KernelUrb.actual_length)

/-- The function `Urb::SetContinuationFlag`.  `flags` is a 32-bit unsigned field,
so that `flags & ~USBDEVFS_URB_BULK_CONTINUATION` masks with
`2 ^ 32 - 1 - USBDEVFS_URB_BULK_CONTINUATION`. -/
def Urb.SetContinuationFlag (u : Urb) (continuation : Bool) : Urb :=
  if continuation then
    { u with KernelUrb := { u.KernelUrb with
        flags := u.KernelUrb.flags ||| USBDEVFS_URB_BULK_CONTINUATION } }
  else
    { u with KernelUrb := { u.KernelUrb with
        flags := u.KernelUrb.flags &&& (2 ^ 32 - 1 - USBDEVFS_URB_BULK_CONTINUATION) } }

/-- Whether the flag `USBDEVFS_URB_BULK_CONTINUATION` is set in a kernel URB. -/
def usbdevfs_urb.continuation (k : usbdevfs_urb) : Bool :=
  k.flags &&& USBDEVFS_URB_BULK_CONTINUATION != 0

/-- What the kernel does to a URB it completes: it stores the bytes delivered,
at most `buffer_length` of them, at the start of the buffer and their number in
`actual_length`. -/
def Urb.complete (u : Urb) (data : List Nat) : Urb :=
  let received := data.take u.KernelUrb.buffer_length
  { u with
    Buffer := received ++ u.Buffer.drop received.length
    KernelUrb := { u.KernelUrb with actual_length := received.length } }

/-! ## `Device` -/

/-- The answers a `Reap` call gets once the script is used up: nothing is ready,
`poll` times out and `USBDEVFS_REAPURBNDELAY` fails with `EAGAIN`. -/
def ReapCall.none : ReapCall :=
  { gettimeofday1 := 0, poll := 0, gettimeofday2 := 0, ioctl := -1, errno := EAGAIN,
    urb := 0, data := [] }

/-- The function `Device::Reap`, on the answers `c` its system calls get.  The source
checks the first `gettimeofday`, calls `poll`, checks the second `gettimeofday`
and only then the result of `poll`; `timeout` is handed to `poll`, whose answer is
part of `c`, and otherwise only used in a message printed to `stderr`. -/
def Device.Reap (_timeout : Int) (c : ReapCall) : Except Error Nat :=
  if c.gettimeofday1 = -1 then .error (.Exception "gettimeofday")
  else if c.gettimeofday2 = -1 then .error (.Exception "gettimeofday")
  else if c.poll < 0 then .error (.Exception "poll")
  else if c.ioctl = 0 then .ok c.urb
  else if c.errno = EAGAIN then .error (.TimeoutException "timeout reaping usb urb")
  else .error (.Exception "ioctl")

/-- The log entry of a `Reap` call. -/
def Device.Reap.event (timeout : Int) (c : ReapCall) : Event :=
  match Device.Reap timeout c with
  | .ok addr => Event.REAPURB addr c.data
  | .error e => Event.REAPFAILED e

/-- The `while (true)` loop of `Device::Submit`, by recursion on the kernel's
remaining script of `Reap` answers.  A reaped pointer that is not in `_urbs` is
skipped; one that is there is erased, and the loop ends when it is `urb`.  Past the
end of the script `Reap` gets the answers `ReapCall.none`, on which it throws its
`TimeoutException`. -/
def Device.Submit.loop (urb : Urb) (timeout : Int) :
    List ReapCall → Device → Except Error Urb × Device
  | [], d =>
    (.error (.TimeoutException "timeout reaping usb urb"),
     { d with reapCalls := [], log := d.log ++ [Device.Reap.event timeout ReapCall.none] })
  | c :: rest, d =>
    let d := { d with reapCalls := rest, log := d.log ++ [Device.Reap.event timeout c] }
    match Device.Reap timeout c with
    | .error e => (.error e, d)
    | .ok completedKernelUrb =>
      if completedKernelUrb ∈ d._urbs then
        let d := { d with _urbs := d._urbs.filter (fun k => k ≠ completedKernelUrb) }
        if completedKernelUrb = urb.Addr then
          (.ok (urb.complete c.data), d)
        else
          Device.Submit.loop urb timeout rest d
      else
        Device.Submit.loop urb timeout rest d

/-- The function `Device::Submit`.  A failing `urb->Submit()` throws before the
`try` block.  `std::map::insert` leaves the map alone when the key is there.  Both
handlers discard the URB and rethrow.  The `Urb` returned is `urb` as the kernel
left it. -/
def Device.Submit (urb : Urb) (timeout : Int) (d : Device) : Except Error Urb × Device :=
  match urb.Submit d with
  | (.error e, d) => (.error e, d)
  | (.ok (), d) =>
    let d := { d with _urbs := if urb.Addr ∈ d._urbs then d._urbs else d._urbs ++ [urb.Addr] }
    match Device.Submit.loop urb timeout d.reapCalls d with
    | (.ok urb, d) => (.ok urb, d)
    | (.error e, d) => (.error e, urb.Discard d)

/-- The body of the lambda pushed by `Device::WriteControl`, on the answer of its
`USBDEVFS_CONTROL` ioctl. -/
def ControlClosure.result (c : ControlClosure) (a : IoctlResult) : Except Error Unit :=
  if a.r ≥ 0 then
    if c.interruptCurrentTransaction then .error (.runtime_error "transaction aborted")
    else .ok ()
  else if a.errno = EAGAIN then .error (.TimeoutException "timeout sending control transfer")
  else .error (.Exception "ioctl")

/-- The call of a queued closure: it issues the ioctl `USBDEVFS_CONTROL`, which
takes the next answer of the kernel's script. -/
def ControlClosure.call (c : ControlClosure) (d : Device) : Except Error Unit × Device :=
  let a := d.controlResults.headD { r := 0, errno := 0 }
  (c.result a,
   { d with
     controlResults := d.controlResults.tail
     log := d.log ++ [Event.CONTROL c.fd c.ctrl] })

/-- The function `Device::WriteControl`.  `wLength` is a 16-bit and `timeout` a
32-bit unsigned field. -/
def Device.WriteControl (type req value index : Nat) (data : List Nat)
    (interruptCurrentTransaction : Bool) (timeout : Int) (d : Device) : Device :=
  let ctrl : usbdevfs_ctrltransfer :=
    { bRequestType := type
      bRequest := req
      wValue := value
      wIndex := index
      wLength := data.length % 2 ^ 16
      data := data
      timeout := (timeout % 2 ^ 32).toNat }
  let fd := d._fd
  { d with _controls := d._controls ++
      [{ fd := fd, ctrl := ctrl, interruptCurrentTransaction := interruptCurrentTransaction }] }

/-- The loop of `Device::ProcessControl`, by recursion on the queue: the front
closure is called and popped, also when it throws. -/
def Device.ProcessControl.loop : List ControlClosure → Device → Except Error Unit × Device
  | [], d => (.ok (), { d with _controls := [] })
  | c :: rest, d =>
    match c.call d with
    | (.error e, d) => (.error e, { d with _controls := rest })
    | (.ok (), d) => Device.ProcessControl.loop rest { d with _controls := rest }

/-- The function `Device::ProcessControl`. -/
def Device.ProcessControl (d : Device) : Except Error Unit × Device :=
  Device.ProcessControl.loop d._controls d

/-- The `do ... while (r == transferSize)` loop of `Device::WriteBulk`, with the
number of iterations it may still run; `none` is a loop cut short by that
number. -/
def Device.WriteBulk.loop (timeout : Int) (transferSize : Nat) :
    Nat → Urb → Bool → InputStream → Device → Option (Except Error Unit) × InputStream × Device
  | 0, _, _, inputStream, d => (none, inputStream, d)
  | fuel + 1, urb, continuation, inputStream, d =>
    match urb.Send inputStream with
    | (r, urb, inputStream) =>
      let urb := urb.SetContinuationFlag continuation
      let continuation := true
      match Device.Submit urb timeout d with
      | (.error e, d) => (some (.error e), inputStream, d)
      | (.ok urb, d) =>
        match Device.ProcessControl d with
        | (.error e, d) => (some (.error e), inputStream, d)
        | (.ok (), d) =>
          if r = transferSize then
            Device.WriteBulk.loop timeout transferSize fuel urb continuation inputStream d
          else
            (some (.ok ()), inputStream, d)

/-- The function `Device::WriteBulk`; `addr` is the address `std::make_shared`
gives the new `Urb`, and `fuel` bounds the iterations of the loop. -/
def Device.WriteBulk (fuel : Nat) (addr : Nat) (ep : Endpoint) (inputStream : InputStream)
    (timeout : Int) (d : Device) : Option (Except Error Unit) × InputStream × Device :=
  let urb := Urb.new addr d._fd USBDEVFS_URB_TYPE_BULK ep
  let transferSize := urb.Buffer.length
  Device.WriteBulk.loop timeout transferSize fuel urb false inputStream d

/-- The `do ... while (r == transferSize)` loop of `Device::ReadBulk`, with the
number of iterations it may still run; `none` is a loop cut short by that
number. -/
def Device.ReadBulk.loop (timeout : Int) (transferSize : Nat) :
    Nat → Urb → Bool → OutputStream → Device → Option (Except Error Unit) × OutputStream × Device
  | 0, _, _, outputStream, d => (none, outputStream, d)
  | fuel + 1, urb, continuation, outputStream, d =>
    let urb := urb.SetContinuationFlag continuation
    let continuation := true
    match Device.Submit urb timeout d with
    | (.error e, d) => (some (.error e), outputStream, d)
    | (.ok urb, d) =>
      match Device.ProcessControl d with
      | (.error e, d) => (some (.error e), outputStream, d)
      | (.ok (), d) =>
        match urb.Recv outputStream with
        | (r, outputStream) =>
          if r = transferSize then
            Device.ReadBulk.loop timeout transferSize fuel urb continuation outputStream d
          else
            (some (.ok ()), outputStream, d)

/-- The function `Device::ReadBulk`; `addr` is the address `std::make_shared`
gives the new `Urb`, and `fuel` bounds the iterations of the loop. -/
def Device.ReadBulk (fuel : Nat) (addr : Nat) (ep : Endpoint) (outputStream : OutputStream)
    (timeout : Int) (d : Device) : Option (Except Error Unit) × OutputStream × Device :=
  let urb := Urb.new addr d._fd USBDEVFS_URB_TYPE_BULK ep
  let transferSize := urb.Buffer.length
  Device.ReadBulk.loop timeout transferSize fuel urb false outputStream d


/-! ## Notions used in the statements -/

/-- The log entry of a successful `Reap` call that returned `p.1` with data `p.2`. -/
def Event.reaped (p : Nat × List Nat) : Event := Event.REAPURB p.1 p.2

/-- The log entry of the call of a queued closure. -/
def ControlClosure.event (c : ControlClosure) : Event := Event.CONTROL c.fd c.ctrl

/-- The answer the `i`-th `USBDEVFS_CONTROL` ioctl from now gets. -/
def Device.controlAnswer (d : Device) (i : Nat) : IoctlResult :=
  d.controlResults.getD i { r := 0, errno := 0 }

/-- The map `_urbs` after `std::map::insert` of the key `a`. -/
def inserted (urbs : List Nat) (a : Nat) : List Nat :=
  if a ∈ urbs then urbs else urbs ++ [a]

/-- The URBs submitted in a log, in order: for each `USBDEVFS_SUBMITURB` the kernel
URB and the payload handed over. -/
def submitted (log : List Event) : List (usbdevfs_urb × List Nat) :=
  log.filterMap fun
    | Event.SUBMITURB _ k p => some (k, p)
    | _ => none

/-- The requests the kernel received between the states `d` and `d'`. -/
def Device.since (d d' : Device) : List Event := d'.log.drop d.log.length

/-- The payloads of a bulk write of `bytes` that fills `n` buffers of `T` bytes and
then sends what is left. -/
def chunks (T : Nat) : Nat → List Nat → List (List Nat)
  | 0, bytes => [bytes]
  | n + 1, bytes => bytes.take T :: chunks T n (bytes.drop T)

/-- The payloads the kernel stored in the URB at `addr`, submitted with
`buffer_length = T`, in the order of its reapings in a log: of the bytes delivered
the kernel stores the first `T` at most, and their number is `actual_length` (see
`Urb.complete`). -/
def received (addr T : Nat) (log : List Event) : List (List Nat) :=
  log.filterMap fun
    | Event.REAPURB a data => if a = addr then some (data.take T) else none
    | _ => none

/-- The submissions (`true`) and reapings (`false`) of the URB at `addr` in a log,
in order. -/
def turns (addr : Nat) (log : List Event) : List Bool :=
  log.filterMap fun
    | Event.SUBMITURB a _ _ => if a = addr then some true else none
    | Event.REAPURB a _ => if a = addr then some false else none
    | _ => none

/-- A device with nothing pending, used in the examples: descriptor 3, no URB in
the map, an empty control queue, an empty kernel script and an empty log. -/
def Device.idle : Device :=
  { _fd := 3, _urbs := [], _controls := [], submitResults := [], reapCalls := [],
    controlResults := [], log := [] }

/-- The answers of a `Reap` call that reaps the URB at `addr`, for which the device
delivered `data`. -/
def ReapCall.completed (addr : Nat) (data : List Nat) : ReapCall :=
  { gettimeofday1 := 0, poll := 1, gettimeofday2 := 0, ioctl := 0, errno := 0,
    urb := addr, data := data }

/-- An endpoint used in the examples: address 1, max-packet-size 1, so that the
buffer of a bulk URB holds 1024 bytes. -/
def Endpoint.small : Endpoint := { Address := 1, MaxPacketSize := 1 }

/-- A device used in the examples: nothing pending, and a kernel that completes at
once, with no data, the first two submissions of the URB at address 100. -/
def Device.ready : Device :=
  { Device.idle with reapCalls := [ReapCall.completed 100 [], ReapCall.completed 100 []] }

/-- A device used in the examples: nothing pending, and a kernel that first reaps the
URB at address 100 with 1024 bytes, then a URB at address 5 that nobody waits for,
then the URB at address 100 with 3 bytes. -/
def Device.receiving : Device :=
  { Device.idle with
    reapCalls := [ReapCall.completed 100 (List.replicate 1024 7), ReapCall.completed 5 [],
      ReapCall.completed 100 [1, 2, 3]] }

/-- The addresses of the URBs discarded in a log, in order. -/
def discarded (log : List Event) : List Nat :=
  log.filterMap fun
    | Event.DISCARDURB a => some a
    | _ => none

/-- The pointers returned by the successful `Reap` calls of a log, in order. -/
def reapedAddrs (log : List Event) : List Nat :=
  log.filterMap fun
    | Event.REAPURB a _ => some a
    | _ => none

/-- A URB used in the examples: one byte of buffer at address 100. -/
def Urb.small : Urb := Urb.new 100 3 USBDEVFS_URB_TYPE_INTERRUPT Endpoint.small

/-- A device used in the examples: the URBs at addresses 5 and 6 are pending, and the
kernel first reaps the URB at address 5, then one at address 9 that nobody waits
for, then the URB at address 100. -/
def Device.busy : Device :=
  { Device.idle with
    _urbs := [5, 6]
    reapCalls := [ReapCall.completed 5 [], ReapCall.completed 9 [],
      ReapCall.completed 100 []] }

/-- A device used in the examples: `Device.ready` after a call of `WriteControl` that
queued one control transfer which does not interrupt the current transaction. -/
def Device.interleaved : Device :=
  Device.WriteControl 33 100 0 0 [] false 1000 Device.ready

/-- A device used in the examples: `Device.receiving` after a call of `WriteControl`
that queued one control transfer which does not interrupt the current
transaction. -/
def Device.interleavedReceiving : Device :=
  Device.WriteControl 33 100 0 0 [] false 1000 Device.receiving

/-- A device used in the examples: `Device.idle` after three calls of `WriteControl`,
the second of which asks to interrupt the current transaction. -/
def Device.queued : Device :=
  Device.WriteControl 33 102 0 0 [] false 1000
    (Device.WriteControl 33 100 0 0 [1, 64, 7, 0, 0, 0] true 1000
      (Device.WriteControl 33 103 0 0 [] false 1000 Device.idle))

/-- No `USBDEVFS_SUBMITURB` of the kernel's script is refused and no queued control
transfer throws: no closure in the queue interrupts the current transaction and no
`USBDEVFS_CONTROL` of the script fails. -/
def Device.cooperative (d : Device) : Prop :=
  (∀ r ∈ d.submitResults, 0 ≤ r) ∧
  (∀ c ∈ d._controls, c.interruptCurrentTransaction = false) ∧
  (∀ a ∈ d.controlResults, 0 ≤ a.r)

/-- The stream returns from every read as many bytes as are asked for, or all it
still holds when these are fewer: no read of at most `T` bytes is cut short. -/
def InputStream.fills (s : InputStream) (T : Nat) : Prop :=
  ∀ l ∈ s.limits, T ≤ l

/-- The stream accepts every byte of a write of at most `T` bytes. -/
def OutputStream.accepts (o : OutputStream) (T : Nat) : Prop :=
  ∀ l ∈ o.accept, T ≤ l

/-- A stream used in the examples: 1027 bytes, every read filled as far as bytes
remain. -/
def InputStream.sample : InputStream :=
  { data := List.replicate 1024 7 ++ [1, 2, 3], limits := [] }

/-! ## Lemmas -/

theorem Reap_event_ok (t : Int) (c : ReapCall) (a : Nat) (h : Device.Reap t c = .ok a) :
    Device.Reap.event t c = Event.REAPURB a c.data := by
  simp [Device.Reap.event, h]

theorem Reap_event_error (t : Int) (c : ReapCall) (e : Error)
    (h : Device.Reap t c = .error e) : Device.Reap.event t c = Event.REAPFAILED e := by
  simp [Device.Reap.event, h]

theorem Reap_none (t : Int) :
    Device.Reap t ReapCall.none = .error (.TimeoutException "timeout reaping usb urb") := by
  simp [Device.Reap, ReapCall.none, EAGAIN]

theorem Reap_event_none (t : Int) :
    Device.Reap.event t ReapCall.none
      = Event.REAPFAILED (.TimeoutException "timeout reaping usb urb") := by
  simp [Device.Reap.event, Reap_none]

theorem filter_erase_known (l : List Nat) (a : Nat) (ps : List Nat) (q : Nat → Prop)
    [DecidablePred q] :
    (l.filter (fun k => k ≠ a)).filter (fun k => k ∉ ps ∧ q k)
      = l.filter (fun k => k ∉ a :: ps ∧ q k) := by
  rw [List.filter_filter]
  apply List.filter_congr
  intro k _
  simp only [List.mem_cons, not_or, Bool.decide_and, Bool.and_assoc, ne_eq, decide_not]
  cases decide (k = a) <;> simp

theorem filter_skip_unknown (l : List Nat) (a : Nat) (ps : List Nat) (q : Nat → Prop)
    [DecidablePred q] (ha : a ∉ l) :
    l.filter (fun k => k ∉ ps ∧ q k) = l.filter (fun k => k ∉ a :: ps ∧ q k) := by
  apply List.filter_congr
  intro k hk
  have : k ≠ a := fun h => ha (h ▸ hk)
  simp [this]

theorem Submit_loop_spec (urb : Urb) (t : Int) (script : List ReapCall) (d : Device)
    (hin : urb.Addr ∈ d._urbs) :
    ∃ pre : List (Nat × List Nat), (∀ p ∈ pre, p.1 ≠ urb.Addr) ∧
      (Device.Submit.loop urb t script d).2._fd = d._fd ∧
      (Device.Submit.loop urb t script d).2._controls = d._controls ∧
      (Device.Submit.loop urb t script d).2.submitResults = d.submitResults ∧
      (Device.Submit.loop urb t script d).2.controlResults = d.controlResults ∧
      ((∃ data, (Device.Submit.loop urb t script d).1 = .ok (urb.complete data) ∧
          (Device.Submit.loop urb t script d).2.log =
            d.log ++ pre.map Event.reaped ++ [Event.REAPURB urb.Addr data] ∧
          (Device.Submit.loop urb t script d).2._urbs =
            d._urbs.filter (fun k => k ∉ pre.map Prod.fst ∧ k ≠ urb.Addr)) ∨
       (∃ e, (Device.Submit.loop urb t script d).1 = .error e ∧
          (Device.Submit.loop urb t script d).2.log =
            d.log ++ pre.map Event.reaped ++ [Event.REAPFAILED e] ∧
          (Device.Submit.loop urb t script d).2._urbs =
            d._urbs.filter (fun k => k ∉ pre.map Prod.fst ∧ True))) := by
  induction script generalizing d with
  | nil =>
    refine ⟨[], by simp, rfl, rfl, rfl, rfl, Or.inr ⟨_, rfl, ?_, ?_⟩⟩
    · simp [Device.Submit.loop, Reap_event_none]
    · simp [Device.Submit.loop]
  | cons c rest ih =>
    cases hr : Device.Reap t c with
    | error e =>
      refine ⟨[], by simp, ?_⟩
      simp [Device.Submit.loop, hr, Reap_event_error t c e hr]
    | ok a =>
      by_cases hau : a = urb.Addr
      · refine ⟨[], by simp, ?_⟩
        subst hau
        simp [Device.Submit.loop, hr, Reap_event_ok t c _ hr, hin]
      · by_cases ha : a ∈ d._urbs
        · obtain ⟨pre, hpre, h1, h2, h3, h4, h5⟩ := ih
            { d with reapCalls := rest, log := d.log ++ [Device.Reap.event t c],
                     _urbs := d._urbs.filter (fun k => k ≠ a) }
            (by simp [List.mem_filter, hin]; exact fun h => hau h.symm)
          refine ⟨(a, c.data) :: pre, ?_, ?_⟩
          · intro p hp
            rcases List.mem_cons.1 hp with rfl | hp
            · exact hau
            · exact hpre p hp
          · simp only [Device.Submit.loop, hr, ha, hau, if_true, if_false]
            refine ⟨h1, h2, h3, h4, ?_⟩
            rcases h5 with ⟨data, e1, e2, e3⟩ | ⟨e, e1, e2, e3⟩
            · refine Or.inl ⟨data, e1, ?_, ?_⟩
              · rw [e2]; simp [Reap_event_ok t c _ hr, Event.reaped]
              · rw [e3]; exact filter_erase_known _ _ _ _
            · refine Or.inr ⟨e, e1, ?_, ?_⟩
              · rw [e2]; simp [Reap_event_ok t c _ hr, Event.reaped]
              · rw [e3]; exact filter_erase_known _ _ _ _
        · obtain ⟨pre, hpre, h1, h2, h3, h4, h5⟩ := ih
            { d with reapCalls := rest, log := d.log ++ [Device.Reap.event t c] } hin
          refine ⟨(a, c.data) :: pre, ?_, ?_⟩
          · intro p hp
            rcases List.mem_cons.1 hp with rfl | hp
            · exact hau
            · exact hpre p hp
          · simp only [Device.Submit.loop, hr, ha, hau, if_true, if_false]
            refine ⟨h1, h2, h3, h4, ?_⟩
            rcases h5 with ⟨data, e1, e2, e3⟩ | ⟨e, e1, e2, e3⟩
            · refine Or.inl ⟨data, e1, ?_, ?_⟩
              · rw [e2]; simp [Reap_event_ok t c _ hr, Event.reaped]
              · rw [e3]; exact filter_skip_unknown _ _ _ _ ha
            · refine Or.inr ⟨e, e1, ?_, ?_⟩
              · rw [e2]; simp [Reap_event_ok t c _ hr, Event.reaped]
              · rw [e3]; exact filter_skip_unknown _ _ _ _ ha

theorem controlAnswer_zero (d : Device) :
    d.controlResults.headD { r := 0, errno := 0 } = d.controlAnswer 0 := by
  unfold Device.controlAnswer
  cases d.controlResults <;> simp

theorem controlAnswer_tail (d : Device) (l : List Event) (q : List ControlClosure) (i : Nat) :
    Device.controlAnswer { d with controlResults := d.controlResults.tail, log := l, _controls := q } i
      = d.controlAnswer (i + 1) := by
  unfold Device.controlAnswer
  cases h : d.controlResults <;> simp

theorem ProcessControl_loop_error (c : ControlClosure) (rest : List ControlClosure) (d : Device)
    (e : Error) (h : c.result (d.controlAnswer 0) = .error e) :
    Device.ProcessControl.loop (c :: rest) d =
      (.error e,
       { d with
         controlResults := d.controlResults.tail
         log := d.log ++ [c.event]
         _controls := rest }) := by
  simp only [Device.ProcessControl.loop, ControlClosure.call, controlAnswer_zero, h,
    ControlClosure.event]

theorem ProcessControl_loop_ok (c : ControlClosure) (rest : List ControlClosure) (d : Device)
    (h : c.result (d.controlAnswer 0) = .ok ()) :
    Device.ProcessControl.loop (c :: rest) d =
      Device.ProcessControl.loop rest
        { d with
          controlResults := d.controlResults.tail
          log := d.log ++ [c.event]
          _controls := rest } := by
  simp only [Device.ProcessControl.loop, ControlClosure.call, controlAnswer_zero, h,
    ControlClosure.event]

theorem ProcessControl_loop_spec (q : List ControlClosure) (d : Device) :
    ∃ k, k ≤ q.length ∧
      (Device.ProcessControl.loop q d).2.log = d.log ++ (q.take k).map ControlClosure.event ∧
      (Device.ProcessControl.loop q d).2._controls = q.drop k ∧
      (Device.ProcessControl.loop q d).2._urbs = d._urbs ∧
      (Device.ProcessControl.loop q d).2._fd = d._fd ∧
      (Device.ProcessControl.loop q d).2.submitResults = d.submitResults ∧
      (Device.ProcessControl.loop q d).2.reapCalls = d.reapCalls ∧
      (Device.ProcessControl.loop q d).2.controlResults = d.controlResults.drop k ∧
      (∀ i c, i + 1 < k → q[i]? = some c → c.result (d.controlAnswer i) = .ok ()) ∧
      (match (Device.ProcessControl.loop q d).1 with
       | .ok _ => k = q.length ∧
           ∀ c, q[k - 1]? = some c → c.result (d.controlAnswer (k - 1)) = .ok ()
       | .error e => 0 < k ∧
           ∃ c, q[k - 1]? = some c ∧ c.result (d.controlAnswer (k - 1)) = .error e) := by
  induction q generalizing d with
  | nil => exact ⟨0, by simp [Device.ProcessControl.loop]⟩
  | cons c rest ih =>
    cases hr : c.result (d.controlAnswer 0) with
    | error e =>
      refine ⟨1, ?_⟩
      rw [ProcessControl_loop_error c rest d e hr]
      simp [hr]
    | ok u =>
      obtain ⟨k, hk, hlog, hq, hu, hfd, hs, hrc, hcr, hpre, hres⟩ :=
        ih { d with controlResults := d.controlResults.tail,
                    log := d.log ++ [c.event], _controls := rest }
      refine ⟨k + 1, by simpa using hk, ?_⟩
      rw [ProcessControl_loop_ok c rest d hr]
      refine ⟨?_, ?_, hu, hfd, hs, hrc, ?_, ?_, ?_⟩
      · rw [hlog]; simp
      · simpa using hq
      · rw [hcr]; simp
      · intro i c' hi hc'
        cases i with
        | zero => simp at hc'; subst hc'; exact hr
        | succ j =>
          have := hpre j c' (by omega) (by simpa using hc')
          rwa [controlAnswer_tail] at this
      · revert hres
        cases (Device.ProcessControl.loop rest _).1 with
        | ok v =>
          simp only []
          rintro ⟨rfl, h⟩
          refine ⟨rfl, ?_⟩
          intro c' hc'
          cases rest with
          | nil => simp at hc'; subst hc'; exact hr
          | cons c2 r2 =>
            have := h c' (by simpa using hc')
            rw [controlAnswer_tail] at this
            simpa using this
        | error e =>
          simp only []
          rintro ⟨hk0, c', hc', he⟩
          refine ⟨by omega, c', ?_, ?_⟩
          · obtain ⟨j, rfl⟩ : ∃ j, k = j + 1 := ⟨k - 1, by omega⟩
            simpa using hc'
          · rw [controlAnswer_tail] at he
            obtain ⟨j, rfl⟩ : ∃ j, k = j + 1 := ⟨k - 1, by omega⟩
            simpa using he

theorem mem_inserted (urbs : List Nat) (a : Nat) : a ∈ inserted urbs a := by
  unfold inserted
  split <;> simp_all

theorem Urb_Submit_neg (urb : Urb) (d : Device) (h : d.submitResults.headD 0 < 0) :
    urb.Submit d = (.error (.Exception "ioctl(Fd, USBDEVFS_SUBMITURB, &KernelUrb)"),
      { d with
        submitResults := d.submitResults.tail
        log := d.log ++ [Event.SUBMITURB urb.Addr urb.KernelUrb urb.payload] }) := by
  simp only [Urb.Submit, h, if_true]

theorem Urb_Submit_nonneg (urb : Urb) (d : Device) (h : ¬ d.submitResults.headD 0 < 0) :
    urb.Submit d = (.ok (),
      { d with
        submitResults := d.submitResults.tail
        log := d.log ++ [Event.SUBMITURB urb.Addr urb.KernelUrb urb.payload] }) := by
  simp only [Urb.Submit, h, if_false]

theorem Submit_spec (urb : Urb) (t : Int) (d : Device) :
    ∃ evs, (Device.Submit urb t d).2.log =
        d.log ++ Event.SUBMITURB urb.Addr urb.KernelUrb urb.payload :: evs ∧
      (Device.Submit urb t d).2._fd = d._fd ∧
      (Device.Submit urb t d).2._controls = d._controls ∧
      (Device.Submit urb t d).2.controlResults = d.controlResults ∧
      (match (Device.Submit urb t d).1 with
       | .ok u => 0 ≤ d.submitResults.headD 0 ∧
           ∃ pre : List (Nat × List Nat), ∃ data, (∀ p ∈ pre, p.1 ≠ urb.Addr) ∧
             u = urb.complete data ∧
             evs = pre.map Event.reaped ++ [Event.REAPURB urb.Addr data] ∧
             (Device.Submit urb t d).2._urbs =
               (inserted d._urbs urb.Addr).filter (fun k => k ∉ pre.map Prod.fst ∧ k ≠ urb.Addr)
       | .error e =>
           (d.submitResults.headD 0 < 0 ∧ evs = [] ∧
             e = .Exception "ioctl(Fd, USBDEVFS_SUBMITURB, &KernelUrb)" ∧
             (Device.Submit urb t d).2._urbs = d._urbs) ∨
           (0 ≤ d.submitResults.headD 0 ∧
             ∃ pre : List (Nat × List Nat), (∀ p ∈ pre, p.1 ≠ urb.Addr) ∧
               evs = pre.map Event.reaped ++ [Event.REAPFAILED e, Event.DISCARDURB urb.Addr] ∧
               (Device.Submit urb t d).2._urbs =
                 (inserted d._urbs urb.Addr).filter (fun k => k ∉ pre.map Prod.fst ∧ True))) := by
  by_cases hs : d.submitResults.headD 0 < 0
  · refine ⟨[], ?_⟩
    rw [show Device.Submit urb t d = (.error (.Exception "ioctl(Fd, USBDEVFS_SUBMITURB, &KernelUrb)"),
      { d with
        submitResults := d.submitResults.tail
        log := d.log ++ [Event.SUBMITURB urb.Addr urb.KernelUrb urb.payload] }) by
      simp only [Device.Submit, Urb_Submit_neg urb d hs]]
    exact ⟨rfl, rfl, rfl, rfl, Or.inl ⟨hs, rfl, rfl, rfl⟩⟩
  · have hs' : 0 ≤ d.submitResults.headD 0 := not_lt.1 hs
    obtain ⟨pre, hpre, h1, h2, h3, h4, h5⟩ := Submit_loop_spec urb t d.reapCalls
      { d with
        submitResults := d.submitResults.tail
        log := d.log ++ [Event.SUBMITURB urb.Addr urb.KernelUrb urb.payload]
        _urbs := inserted d._urbs urb.Addr } (mem_inserted _ _)
    rcases h5 with ⟨data, e1, e2, e3⟩ | ⟨e, e1, e2, e3⟩
    · refine ⟨pre.map Event.reaped ++ [Event.REAPURB urb.Addr data], ?_⟩
      have hv : Device.Submit urb t d =
          (.ok (urb.complete data), (Device.Submit.loop urb t d.reapCalls
            { d with
              submitResults := d.submitResults.tail
              log := d.log ++ [Event.SUBMITURB urb.Addr urb.KernelUrb urb.payload]
              _urbs := inserted d._urbs urb.Addr }).2) := by
        simp only [Device.Submit, Urb_Submit_nonneg urb d hs, inserted]
        simp only [inserted] at e1
        split
        · next u d' heq => rw [heq] at e1; simp at e1; subst e1; simp [heq]
        · next e' d' heq => rw [heq] at e1; simp at e1
      rw [hv]
      refine ⟨by rw [e2]; simp, h1, h2, h4, hs', pre, data, hpre, rfl, rfl, e3⟩
    · refine ⟨pre.map Event.reaped ++ [Event.REAPFAILED e, Event.DISCARDURB urb.Addr], ?_⟩
      have hv : Device.Submit urb t d =
          (.error e, urb.Discard (Device.Submit.loop urb t d.reapCalls
            { d with
              submitResults := d.submitResults.tail
              log := d.log ++ [Event.SUBMITURB urb.Addr urb.KernelUrb urb.payload]
              _urbs := inserted d._urbs urb.Addr }).2) := by
        simp only [Device.Submit, Urb_Submit_nonneg urb d hs, inserted]
        simp only [inserted] at e1
        split
        · next u d' heq => rw [heq] at e1; simp at e1
        · next e' d' heq => rw [heq] at e1; simp at e1; subst e1; simp [heq]
      rw [hv]
      refine ⟨by simp [Urb.Discard, e2], h1, h2, h4, Or.inr ⟨hs', pre, hpre, rfl, e3⟩⟩

theorem continuation_set (f : Nat) : (f ||| 4) &&& 4 ≠ 0 := by
  intro h
  have h2 := congrArg (fun n => n.testBit 2) h
  have h4 : Nat.testBit 4 2 = true := by decide
  simp [Nat.testBit_and, Nat.testBit_or, h4] at h2

theorem continuation_clear (f : Nat) : (f &&& 4294967291) &&& 4 = 0 := by
  rw [Nat.and_assoc]
  have : 4294967291 &&& 4 = 0 := by decide
  rw [this]; simp

theorem SetContinuationFlag_continuation (u : Urb) (c : Bool) :
    (u.SetContinuationFlag c).KernelUrb.continuation = c := by
  cases c
  · simp [Urb.SetContinuationFlag, usbdevfs_urb.continuation, USBDEVFS_URB_BULK_CONTINUATION,
      continuation_clear]
  · simp [Urb.SetContinuationFlag, usbdevfs_urb.continuation, USBDEVFS_URB_BULK_CONTINUATION,
      continuation_set]

@[simp]
theorem submitted_nil : submitted [] = [] := rfl

@[simp]
theorem submitted_append (l₁ l₂ : List Event) :
    submitted (l₁ ++ l₂) = submitted l₁ ++ submitted l₂ := by
  simp [submitted, List.filterMap_append]

@[simp]
theorem submitted_cons_submit (a : Nat) (k : usbdevfs_urb) (p : List Nat)
    (l : List Event) : submitted (Event.SUBMITURB a k p :: l) = (k, p) :: submitted l := by
  simp [submitted, List.filterMap_cons]

@[simp]
theorem submitted_cons_reapurb (a : Nat) (p : List Nat)
    (l : List Event) : submitted (Event.REAPURB a p :: l) = submitted l := by
  simp [submitted, List.filterMap_cons]

@[simp]
theorem submitted_cons_reapfailed (e : Error)
    (l : List Event) : submitted (Event.REAPFAILED e :: l) = submitted l := by
  simp [submitted, List.filterMap_cons]

@[simp]
theorem submitted_cons_discard (a : Nat)
    (l : List Event) : submitted (Event.DISCARDURB a :: l) = submitted l := by
  simp [submitted, List.filterMap_cons]

@[simp]
theorem submitted_cons_control (fd : Int) (c : usbdevfs_ctrltransfer)
    (l : List Event) : submitted (Event.CONTROL fd c :: l) = submitted l := by
  simp [submitted, List.filterMap_cons]

@[simp]
theorem submitted_reaped (pre : List (Nat × List Nat)) :
    submitted (pre.map Event.reaped) = [] := by
  induction pre with
  | nil => rfl
  | cons p ps ih => simpa [Event.reaped] using ih

@[simp]
theorem submitted_controls (q : List ControlClosure) :
    submitted (q.map ControlClosure.event) = [] := by
  induction q with
  | nil => rfl
  | cons p ps ih => simpa [ControlClosure.event] using ih

@[simp]
theorem submitted_take_controls (q : List ControlClosure) (k : Nat) :
    submitted ((q.map ControlClosure.event).take k) = [] := by
  rw [← List.map_take]; exact submitted_controls _

theorem ProcessControl_spec (d : Device) :
    ∃ k, k ≤ d._controls.length ∧
      (Device.ProcessControl d).2.log = d.log ++ (d._controls.take k).map ControlClosure.event ∧
      (Device.ProcessControl d).2._fd = d._fd ∧
      (Device.ProcessControl d).2._urbs = d._urbs := by
  obtain ⟨k, hk, h1, _, h3, h4, _⟩ := ProcessControl_loop_spec d._controls d
  exact ⟨k, hk, h1, h4, h3⟩

/-- One iteration of the loop of `Device::WriteBulk`. -/
theorem WriteBulk_loop_step (t : Int) (T fuel : Nat) (urb : Urb) (c : Bool) (s : InputStream)
    (d : Device) :
    ∃ evs d', d'.log = d.log ++
        Event.SUBMITURB urb.Addr ((urb.Send s).2.1.SetContinuationFlag c).KernelUrb
          ((urb.Send s).2.1.SetContinuationFlag c).payload :: evs ∧
      submitted evs = [] ∧ d'._fd = d._fd ∧
      ((∃ e, Device.WriteBulk.loop t T (fuel + 1) urb c s d =
          (some (.error e), (urb.Send s).2.2, d')) ∨
       (∃ data, Device.WriteBulk.loop t T (fuel + 1) urb c s d =
          if (urb.Send s).1 = T then
            Device.WriteBulk.loop t T fuel
              (((urb.Send s).2.1.SetContinuationFlag c).complete data) true (urb.Send s).2.2 d'
          else (some (.ok ()), (urb.Send s).2.2, d'))) := by
  rcases hsend : urb.Send s with ⟨r, urb1, s1⟩
  have haddr : (urb1.SetContinuationFlag c).Addr = urb.Addr := by
    have : urb1 = (urb.Send s).2.1 := by rw [hsend]
    subst this
    cases c <;> simp [Urb.SetContinuationFlag, Urb.Send]
  simp only [Device.WriteBulk.loop, hsend]
  obtain ⟨evs1, hlog1, hfd1, -, -, hm⟩ := Submit_spec (urb1.SetContinuationFlag c) t d
  rw [haddr] at hlog1
  rcases hS : Device.Submit (urb1.SetContinuationFlag c) t d with ⟨res1, d1⟩
  rw [hS] at hlog1 hfd1 hm
  cases res1 with
  | error e =>
    refine ⟨evs1, d1, hlog1, ?_, hfd1, Or.inl ⟨e, rfl⟩⟩
    rcases hm with ⟨-, rfl, -⟩ | ⟨-, pre, -, rfl, -⟩ <;> simp
  | ok u' =>
    obtain ⟨-, pre, data, -, rfl, rfl, -⟩ := hm
    obtain ⟨k, -, hlog2, hfd2, -⟩ := ProcessControl_spec d1
    rcases hP : Device.ProcessControl d1 with ⟨res2, d2⟩
    rw [hP] at hlog2 hfd2
    simp only [hP]
    simp only [] at hlog1 hlog2 hfd1 hfd2
    refine ⟨(pre.map Event.reaped ++ [Event.REAPURB (urb1.SetContinuationFlag c).Addr data])
      ++ (d1._controls.take k).map ControlClosure.event, d2, ?_, ?_, ?_, ?_⟩
    · rw [hlog2, hlog1]; simp
    · simp
    · rw [hfd2, hfd1]
    · cases res2 with
      | error e => exact Or.inl ⟨e, rfl⟩
      | ok v => exact Or.inr ⟨data, rfl⟩

theorem since_eq (d d' : Device) (evs : List Event) (h : d'.log = d.log ++ evs) :
    d.since d' = evs := by
  simp [Device.since, h]

theorem WriteBulk_loop_shape (t : Int) (T fuel : Nat) (urb : Urb) (c : Bool) (s : InputStream)
    (d : Device) :
    ∃ evs, (Device.WriteBulk.loop t T fuel urb c s d).2.2.log = d.log ++ evs ∧
      ((evs = [] ∧ fuel = 0) ∨
       ∃ k p tail, evs = Event.SUBMITURB urb.Addr k p :: tail ∧ k.continuation = c ∧
         ∀ v ∈ submitted tail, v.1.continuation = true) := by
  induction fuel generalizing urb c s d with
  | zero => exact ⟨[], by simp [Device.WriteBulk.loop], Or.inl ⟨rfl, rfl⟩⟩
  | succ fuel ih =>
    obtain ⟨evs, d', hlog, hsub, -, h⟩ := WriteBulk_loop_step t T fuel urb c s d
    rcases h with ⟨e, he⟩ | ⟨data, he⟩
    · refine ⟨_, by rw [he]; exact hlog, Or.inr ⟨_, _, evs, rfl,
        SetContinuationFlag_continuation _ _, by simp [hsub]⟩⟩
    · by_cases hr : (urb.Send s).1 = T
      · rw [if_pos hr] at he
        obtain ⟨evs2, hlog2, h2⟩ := ih (((urb.Send s).2.1.SetContinuationFlag c).complete data)
          true (urb.Send s).2.2 d'
        refine ⟨Event.SUBMITURB urb.Addr ((urb.Send s).2.1.SetContinuationFlag c).KernelUrb
            ((urb.Send s).2.1.SetContinuationFlag c).payload :: (evs ++ evs2), ?_,
          Or.inr ⟨_, _, evs ++ evs2, rfl, SetContinuationFlag_continuation _ _, ?_⟩⟩
        · rw [he, hlog2, hlog]; simp
        · intro v hv
          simp only [submitted_append, hsub, List.nil_append] at hv
          rcases h2 with ⟨rfl, -⟩ | ⟨k, p, tail, rfl, hk, htail⟩
          · simp at hv
          · simp only [submitted_cons_submit, List.mem_cons] at hv
            rcases hv with rfl | hv
            · exact hk
            · exact htail v hv
      · rw [if_neg hr] at he
        refine ⟨_, by rw [he]; exact hlog, Or.inr ⟨_, _, evs, rfl,
          SetContinuationFlag_continuation _ _, by simp [hsub]⟩⟩

theorem Read_full (bytes : List Nat) (T : Nat) :
    InputStream.Read { data := bytes, limits := [] } T
      = (bytes.take T, { data := bytes.drop T, limits := [] }) := by
  simp [InputStream.Read]

theorem Read_length_le (s : InputStream) (size : Nat) : (s.Read size).1.length ≤ size := by
  simp only [InputStream.Read, List.length_take]
  omega

theorem Send_fst (urb : Urb) (s : InputStream) :
    (urb.Send s).1 = (s.Read urb.Buffer.length).1.length := rfl

theorem Send_stream (urb : Urb) (s : InputStream) :
    (urb.Send s).2.2 = (s.Read urb.Buffer.length).2 := rfl

theorem Send_payload (urb : Urb) (s : InputStream) (c : Bool) :
    ((urb.Send s).2.1.SetContinuationFlag c).payload = (s.Read urb.Buffer.length).1 := by
  cases c <;> simp [Urb.Send, Urb.SetContinuationFlag, Urb.payload]

theorem Send_buffer_length (urb : Urb) (s : InputStream) (c : Bool) :
    ((urb.Send s).2.1.SetContinuationFlag c).KernelUrb.buffer_length
      = (s.Read urb.Buffer.length).1.length := by
  cases c <;> simp [Urb.Send, Urb.SetContinuationFlag]

theorem Send_Buffer_length (urb : Urb) (s : InputStream) (c : Bool) :
    ((urb.Send s).2.1.SetContinuationFlag c).Buffer.length = urb.Buffer.length := by
  have := Read_length_le s urb.Buffer.length
  cases c <;> simp [Urb.Send, Urb.SetContinuationFlag] <;> omega

theorem complete_Buffer_length (u : Urb) (data : List Nat)
    (h : u.KernelUrb.buffer_length ≤ u.Buffer.length) :
    (u.complete data).Buffer.length = u.Buffer.length := by
  simp [Urb.complete]
  omega

theorem WriteBulk_loop_full (t : Int) (T : Nat) (hT : 0 < T) (fuel : Nat) :
    ∀ (bytes : List Nat) (urb : Urb) (c : Bool) (d : Device),
      urb.Buffer.length = T → bytes.length / T + 1 ≤ fuel →
      ∃ res s' d' evs,
        Device.WriteBulk.loop t T fuel urb c { data := bytes, limits := [] } d
          = (some res, s', d') ∧
        d'.log = d.log ++ evs ∧
        (res = .ok () → s' = { data := [], limits := [] } ∧
          (submitted evs).map (fun v => (v.1.buffer_length, v.2))
            = (chunks T (bytes.length / T) bytes).map (fun p => (p.length, p))) := by
  induction fuel with
  | zero => intro bytes urb c d _ h; exact absurd h (by simp)
  | succ fuel ih =>
    intro bytes urb c d hB hfuel
    obtain ⟨evs, d', hlog, hsub, -, h⟩ :=
      WriteBulk_loop_step t T fuel urb c { data := bytes, limits := [] } d
    have hbl := Send_buffer_length urb { data := bytes, limits := [] } c
    rw [Send_payload, hB, Read_full] at hlog
    rw [Send_stream, Send_fst, hB, Read_full] at h
    rw [hB, Read_full] at hbl
    simp only [] at hlog h hbl
    rcases h with ⟨e, he⟩ | ⟨data, he⟩
    · exact ⟨_, _, _, _, he, hlog, by simp⟩
    by_cases hN : T ≤ bytes.length
    · have hr : (List.take T bytes).length = T := by simp; omega
      rw [if_pos hr] at he
      have hB' : (((urb.Send { data := bytes, limits := [] }).2.1.SetContinuationFlag c).complete
          data).Buffer.length = T := by
        rw [complete_Buffer_length, Send_Buffer_length, hB]
        rw [Send_Buffer_length, Send_buffer_length, hB]
        exact Read_length_le _ _
      obtain ⟨res, s', d'', evs2, hrun, hlog2, hok⟩ := ih (bytes.drop T) _ true d' hB'
        (by
          have := Nat.div_eq_sub_div hT hN
          simp only [List.length_drop]; omega)
      refine ⟨res, s', d'', Event.SUBMITURB urb.Addr
        ((urb.Send { data := bytes, limits := [] }).2.1.SetContinuationFlag c).KernelUrb
        (List.take T bytes) :: (evs ++ evs2), by rw [he, hrun], by rw [hlog2, hlog]; simp, ?_⟩
      intro hres
      obtain ⟨hs', hch⟩ := hok hres
      refine ⟨hs', ?_⟩
      simp only [submitted_cons_submit, submitted_append, hsub, List.nil_append, List.map_cons,
        hch, List.length_drop, hbl]
      rw [Nat.div_eq_sub_div hT hN]
      simp [chunks]
    · have hlt : bytes.length < T := not_le.1 hN
      have hr : (List.take T bytes).length ≠ T := by simp; omega
      rw [if_neg hr] at he
      refine ⟨_, _, _, _, he, hlog, ?_⟩
      intro _
      simp only [submitted_cons_submit, hsub, List.map_cons, List.map_nil, hbl,
        Nat.div_eq_of_lt hlt, chunks]
      simp [List.take_of_length_le hlt.le, List.drop_of_length_le hlt.le]

@[simp]
theorem received_append (addr T : Nat) (l₁ l₂ : List Event) :
    received addr T (l₁ ++ l₂) = received addr T l₁ ++ received addr T l₂ := by
  simp [received, List.filterMap_append]

@[simp]
theorem turns_append (addr : Nat) (l₁ l₂ : List Event) :
    turns addr (l₁ ++ l₂) = turns addr l₁ ++ turns addr l₂ := by
  simp [turns, List.filterMap_append]

theorem received_reaped (addr T : Nat) (pre : List (Nat × List Nat))
    (h : ∀ p ∈ pre, p.1 ≠ addr) : received addr T (pre.map Event.reaped) = [] := by
  induction pre with
  | nil => rfl
  | cons p ps ih =>
    have hp : p.1 ≠ addr := h p (List.mem_cons_self _ _)
    have := ih (fun q hq => h q (List.mem_cons_of_mem _ hq))
    simp only [received] at this
    simp [received, List.filterMap_cons, Event.reaped, hp, this]

theorem turns_reaped (addr : Nat) (pre : List (Nat × List Nat))
    (h : ∀ p ∈ pre, p.1 ≠ addr) : turns addr (pre.map Event.reaped) = [] := by
  induction pre with
  | nil => rfl
  | cons p ps ih =>
    have hp : p.1 ≠ addr := h p (List.mem_cons_self _ _)
    have := ih (fun q hq => h q (List.mem_cons_of_mem _ hq))
    simp only [turns] at this
    simp [turns, List.filterMap_cons, Event.reaped, hp, this]

@[simp]
theorem received_controls (addr T : Nat) (q : List ControlClosure) :
    received addr T (q.map ControlClosure.event) = [] := by
  induction q with
  | nil => rfl
  | cons p ps ih =>
    simp only [received] at ih
    simp [received, List.filterMap_cons, ControlClosure.event, ih]

@[simp]
theorem turns_controls (addr : Nat) (q : List ControlClosure) :
    turns addr (q.map ControlClosure.event) = [] := by
  induction q with
  | nil => rfl
  | cons p ps ih =>
    simp only [turns] at ih
    simp [turns, List.filterMap_cons, ControlClosure.event, ih]

theorem SetContinuationFlag_Addr (u : Urb) (c : Bool) :
    (u.SetContinuationFlag c).Addr = u.Addr := by
  cases c <;> rfl

theorem SetContinuationFlag_Buffer (u : Urb) (c : Bool) :
    (u.SetContinuationFlag c).Buffer = u.Buffer := by
  cases c <;> rfl

theorem SetContinuationFlag_buffer_length (u : Urb) (c : Bool) :
    (u.SetContinuationFlag c).KernelUrb.buffer_length = u.KernelUrb.buffer_length := by
  cases c <;> rfl

/-- One iteration of the loop of `Device::ReadBulk`. -/
theorem ReadBulk_loop_step (t : Int) (T fuel : Nat) (urb : Urb) (c : Bool) (o : OutputStream)
    (d : Device) :
    ∃ evs d', d'.log = d.log ++
        Event.SUBMITURB urb.Addr (urb.SetContinuationFlag c).KernelUrb
          (urb.SetContinuationFlag c).payload :: evs ∧
      submitted evs = [] ∧ d'._fd = d._fd ∧
      ((∃ e, Device.ReadBulk.loop t T (fuel + 1) urb c o d = (some (.error e), o, d')) ∨
       (∃ (pre : List (Nat × List Nat)) (data : List Nat) (cs : List ControlClosure),
          (∀ p ∈ pre, p.1 ≠ urb.Addr) ∧
          evs = pre.map Event.reaped ++ [Event.REAPURB urb.Addr data]
            ++ cs.map ControlClosure.event ∧
          Device.ReadBulk.loop t T (fuel + 1) urb c o d =
            if (((urb.SetContinuationFlag c).complete data).Recv o).1 = T then
              Device.ReadBulk.loop t T fuel ((urb.SetContinuationFlag c).complete data) true
                (((urb.SetContinuationFlag c).complete data).Recv o).2 d'
            else (some (.ok ()), (((urb.SetContinuationFlag c).complete data).Recv o).2, d'))) := by
  have haddr := SetContinuationFlag_Addr urb c
  simp only [Device.ReadBulk.loop]
  obtain ⟨evs1, hlog1, hfd1, -, -, hm⟩ := Submit_spec (urb.SetContinuationFlag c) t d
  rw [haddr] at hlog1
  rcases hS : Device.Submit (urb.SetContinuationFlag c) t d with ⟨res1, d1⟩
  rw [hS] at hlog1 hfd1 hm
  cases res1 with
  | error e =>
    refine ⟨evs1, d1, hlog1, ?_, hfd1, Or.inl ⟨e, rfl⟩⟩
    rcases hm with ⟨-, rfl, -⟩ | ⟨-, pre, -, rfl, -⟩ <;> simp
  | ok u' =>
    obtain ⟨-, pre, data, hpre, rfl, rfl, -⟩ := hm
    obtain ⟨k, -, hlog2, hfd2, -⟩ := ProcessControl_spec d1
    rcases hP : Device.ProcessControl d1 with ⟨res2, d2⟩
    rw [hP] at hlog2 hfd2
    simp only [hP]
    simp only [] at hlog1 hlog2 hfd1 hfd2
    rw [haddr] at hlog1 hpre
    refine ⟨(pre.map Event.reaped ++ [Event.REAPURB urb.Addr data])
      ++ (d1._controls.take k).map ControlClosure.event, d2, ?_, ?_, ?_, ?_⟩
    · rw [hlog2, hlog1]; simp
    · simp
    · rw [hfd2, hfd1]
    · cases res2 with
      | error e => exact Or.inl ⟨e, rfl⟩
      | ok v => exact Or.inr ⟨pre, data, d1._controls.take k, hpre, rfl, rfl⟩

theorem complete_Addr (u : Urb) (data : List Nat) : (u.complete data).Addr = u.Addr := rfl

theorem complete_buffer_length (u : Urb) (data : List Nat) :
    (u.complete data).KernelUrb.buffer_length = u.KernelUrb.buffer_length := rfl

@[simp]
theorem received_cons_submit (addr T a : Nat) (k : usbdevfs_urb) (p : List Nat)
    (l : List Event) : received addr T (Event.SUBMITURB a k p :: l) = received addr T l := by
  simp [received, List.filterMap_cons]

@[simp]
theorem received_cons_own (addr T : Nat) (data : List Nat) (l : List Event) :
    received addr T (Event.REAPURB addr data :: l) = data.take T :: received addr T l := by
  simp [received, List.filterMap_cons]

@[simp]
theorem turns_cons_submit (addr : Nat) (k : usbdevfs_urb) (p : List Nat)
    (l : List Event) : turns addr (Event.SUBMITURB addr k p :: l) = true :: turns addr l := by
  simp [turns, List.filterMap_cons]

@[simp]
theorem turns_cons_own (addr : Nat) (data : List Nat) (l : List Event) :
    turns addr (Event.REAPURB addr data :: l) = false :: turns addr l := by
  simp [turns, List.filterMap_cons]

theorem ReadBulk_loop_shape (t : Int) (T fuel : Nat) (urb : Urb) (c : Bool) (o : OutputStream)
    (d : Device) :
    ∃ evs, (Device.ReadBulk.loop t T fuel urb c o d).2.2.log = d.log ++ evs ∧
      ((evs = [] ∧ fuel = 0) ∨
       ∃ k p tail, evs = Event.SUBMITURB urb.Addr k p :: tail ∧ k.continuation = c ∧
         ∀ v ∈ submitted tail, v.1.continuation = true) := by
  induction fuel generalizing urb c o d with
  | zero => exact ⟨[], by simp [Device.ReadBulk.loop], Or.inl ⟨rfl, rfl⟩⟩
  | succ fuel ih =>
    obtain ⟨evs, d', hlog, hsub, -, h⟩ := ReadBulk_loop_step t T fuel urb c o d
    rcases h with ⟨e, he⟩ | ⟨pre, data, cs, -, -, he⟩
    · refine ⟨_, by rw [he]; exact hlog, Or.inr ⟨_, _, evs, rfl,
        SetContinuationFlag_continuation _ _, by simp [hsub]⟩⟩
    · by_cases hr : (((urb.SetContinuationFlag c).complete data).Recv o).1 = T
      · rw [if_pos hr] at he
        obtain ⟨evs2, hlog2, h2⟩ := ih ((urb.SetContinuationFlag c).complete data)
          true (((urb.SetContinuationFlag c).complete data).Recv o).2 d'
        refine ⟨Event.SUBMITURB urb.Addr (urb.SetContinuationFlag c).KernelUrb
            (urb.SetContinuationFlag c).payload :: (evs ++ evs2), ?_,
          Or.inr ⟨_, _, evs ++ evs2, rfl, SetContinuationFlag_continuation _ _, ?_⟩⟩
        · rw [he, hlog2, hlog]; simp
        · intro v hv
          simp only [submitted_append, hsub, List.nil_append] at hv
          rcases h2 with ⟨rfl, -⟩ | ⟨k, p, tail, rfl, hk, htail⟩
          · simp at hv
          · simp only [submitted_cons_submit, List.mem_cons] at hv
            rcases hv with rfl | hv
            · exact hk
            · exact htail v hv
      · rw [if_neg hr] at he
        refine ⟨_, by rw [he]; exact hlog, Or.inr ⟨_, _, evs, rfl,
          SetContinuationFlag_continuation _ _, by simp [hsub]⟩⟩

theorem chunks_flatten (T n : Nat) (bytes : List Nat) : (chunks T n bytes).flatten = bytes := by
  induction n generalizing bytes with
  | zero => simp [chunks]
  | succ n ih => simp [chunks, ih]

theorem chunks_split (T n : Nat) (bytes : List Nat) (h : n * T ≤ bytes.length) :
    ∃ full last, chunks T n bytes = full ++ [last] ∧ full.length = n ∧
      (∀ p ∈ full, p.length = T) ∧ last.length = bytes.length - n * T := by
  induction n generalizing bytes with
  | zero => exact ⟨[], bytes, by simp [chunks]⟩
  | succ n ih =>
    have hT : T ≤ bytes.length := by
      have : (n + 1) * T = n * T + T := by ring
      omega
    obtain ⟨full, last, h1, h2, h3, h4⟩ := ih (bytes.drop T) (by
      have : (n + 1) * T = n * T + T := by ring
      simp only [List.length_drop]; omega)
    refine ⟨bytes.take T :: full, last, by simp [chunks, h1], by simp [h2], ?_, ?_⟩
    · intro p hp
      rcases List.mem_cons.1 hp with rfl | hp
      · simp; omega
      · exact h3 p hp
    · have : (n + 1) * T = n * T + T := by ring
      rw [h4, List.length_drop]; omega

theorem after_control_set (ev : Event) (tail : List Event)
    (hev : ∀ fd ctrl, ev ≠ Event.CONTROL fd ctrl)
    (htail : ∀ v ∈ submitted tail, v.1.continuation = true)
    (pre post : List Event) (fd : Int) (ctrl : usbdevfs_ctrltransfer)
    (h : ev :: tail = pre ++ Event.CONTROL fd ctrl :: post) :
    ∀ v ∈ submitted post, v.1.continuation = true := by
  cases pre with
  | nil =>
    simp only [List.nil_append, List.cons.injEq] at h
    exact absurd h.1 (hev fd ctrl)
  | cons x pre =>
    simp only [List.cons_append, List.cons.injEq] at h
    intro v hv
    apply htail v
    rw [h.2]
    simp only [submitted_append, submitted_cons_control, List.mem_append]
    exact Or.inr hv

theorem new_Buffer_length (addr : Nat) (fd : Int) (ep : Endpoint) :
    (Urb.new addr fd USBDEVFS_URB_TYPE_BULK ep).Buffer.length = 1024 * ep.MaxPacketSize := by
  simp [Urb.new, Urb.PacketsPerBuffer]

theorem WriteBulk_full (k addr : Nat) (ep : Endpoint) (bytes : List Nat) (timeout : Int)
    (d : Device) (hm : 0 < ep.MaxPacketSize) :
    ∃ res s' d' evs,
      Device.WriteBulk (bytes.length / (1024 * ep.MaxPacketSize) + 1 + k) addr ep
          { data := bytes, limits := [] } timeout d = (some res, s', d') ∧
      d.since d' = evs ∧
      (res = .ok () → s' = { data := [], limits := [] } ∧
        (submitted evs).map (fun v => (v.1.buffer_length, v.2))
          = (chunks (1024 * ep.MaxPacketSize) (bytes.length / (1024 * ep.MaxPacketSize)) bytes).map
              (fun p => (p.length, p))) := by
  obtain ⟨res, s', d', evs, h1, h2, h3⟩ := WriteBulk_loop_full timeout (1024 * ep.MaxPacketSize)
    (by omega) (bytes.length / (1024 * ep.MaxPacketSize) + 1 + k) bytes
    (Urb.new addr d._fd USBDEVFS_URB_TYPE_BULK ep) false d (new_Buffer_length _ _ _) (by omega)
  refine ⟨res, s', d', evs, ?_, since_eq _ _ _ h2, h3⟩
  rw [Device.WriteBulk, new_Buffer_length]
  exact h1

theorem map_eq_map_length {l : List (Nat × List Nat)} {ps : List (List Nat)}
    (h : l.map (fun v => (v.1, v.2)) = ps.map (fun p => (p.length, p))) :
    l.map Prod.snd = ps ∧ ∀ v ∈ l, v.1 = v.2.length := by
  induction l generalizing ps with
  | nil =>
    cases ps with
    | nil => simp
    | cons p ps => simp at h
  | cons v l ih =>
    cases ps with
    | nil => simp at h
    | cons p ps =>
      simp only [List.map_cons, List.cons.injEq, Prod.mk.injEq] at h
      obtain ⟨⟨h1, h2⟩, h3⟩ := h
      obtain ⟨i1, i2⟩ := ih h3
      refine ⟨by simp [h2, i1], ?_⟩
      intro x hx
      rcases List.mem_cons.1 hx with rfl | hx
      · rw [h1, h2]
      · exact i2 x hx

theorem new_buffer_length (addr : Nat) (fd : Int) (ep : Endpoint) :
    (Urb.new addr fd USBDEVFS_URB_TYPE_BULK ep).KernelUrb.buffer_length
      = 1024 * ep.MaxPacketSize := by
  simp [Urb.new, Urb.PacketsPerBuffer]

theorem reapedAddrs_reaped (pre : List (Nat × List Nat)) (l : List Event) :
    reapedAddrs (pre.map Event.reaped ++ l) = pre.map Prod.fst ++ reapedAddrs l := by
  induction pre with
  | nil => rfl
  | cons p ps ih =>
    simp only [reapedAddrs] at ih
    simp [reapedAddrs, List.filterMap_cons, Event.reaped, ih]

theorem Reap_ok_urb (t : Int) (x : ReapCall) (a : Nat) (h : Device.Reap t x = .ok a) :
    a = x.urb := by
  unfold Device.Reap at h
  split_ifs at h
  simpa using h.symm

theorem exists_first_own (addr : Nat) (l : List ReapCall)
    (h : 1 ≤ (l.filter (fun x => x.urb = addr)).length) :
    ∃ p₁ c p₂, l = p₁ ++ c :: p₂ ∧ (∀ x ∈ p₁, x.urb ≠ addr) ∧ c.urb = addr ∧
      l.filter (fun x => x.urb = addr) = c :: p₂.filter (fun x => x.urb = addr) := by
  induction l with
  | nil => simp at h
  | cons x l ih =>
    by_cases hx : x.urb = addr
    · exact ⟨[], x, l, rfl, by simp, hx, by simp [List.filter_cons, hx]⟩
    · have h' : 1 ≤ (l.filter (fun x => x.urb = addr)).length := by
        simpa [List.filter_cons, hx] using h
      obtain ⟨p₁, c, p₂, rfl, h1, h2, h3⟩ := ih h'
      refine ⟨x :: p₁, c, p₂, rfl, ?_, h2, ?_⟩
      · intro y hy
        rcases List.mem_cons.1 hy with rfl | hy
        · exact hx
        · exact h1 y hy
      · simpa [List.filter_cons, hx] using h3

theorem Submit_loop_reaps (urb : Urb) (t : Int) (c : ReapCall) (rest : List ReapCall)
    (hc : Device.Reap t c = .ok urb.Addr) :
    ∀ (pre : List ReapCall) (d : Device), (∀ x ∈ pre, Device.Reap t x = .ok x.urb) →
      (∀ x ∈ pre, x.urb ≠ urb.Addr) → urb.Addr ∈ d._urbs →
      (Device.Submit.loop urb t (pre ++ c :: rest) d).1 = .ok (urb.complete c.data) ∧
      (Device.Submit.loop urb t (pre ++ c :: rest) d).2.reapCalls = rest ∧
      (Device.Submit.loop urb t (pre ++ c :: rest) d).2.submitResults = d.submitResults ∧
      (Device.Submit.loop urb t (pre ++ c :: rest) d).2._controls = d._controls ∧
      (Device.Submit.loop urb t (pre ++ c :: rest) d).2.controlResults = d.controlResults := by
  intro pre
  induction pre with
  | nil =>
    intro d _ _ hin
    simp [Device.Submit.loop, hc, hin]
  | cons x pre ih =>
    intro d hok hne hin
    have hx := hok x (List.mem_cons_self _ _)
    have hxa : x.urb ≠ urb.Addr := hne x (List.mem_cons_self _ _)
    have hok' : ∀ y ∈ pre, Device.Reap t y = .ok y.urb :=
      fun y hy => hok y (List.mem_cons_of_mem _ hy)
    have hne' : ∀ y ∈ pre, y.urb ≠ urb.Addr := fun y hy => hne y (List.mem_cons_of_mem _ hy)
    by_cases hm : x.urb ∈ d._urbs
    · have := ih { d with reapCalls := pre ++ c :: rest,
                          log := d.log ++ [Device.Reap.event t x],
                          _urbs := d._urbs.filter (fun k => k ≠ x.urb) } hok' hne'
        (by simp [List.mem_filter, hin]; exact fun h => hxa h.symm)
      simpa [Device.Submit.loop, hx, hm, hxa] using this
    · have := ih { d with reapCalls := pre ++ c :: rest,
                          log := d.log ++ [Device.Reap.event t x] } hok' hne' hin
      simpa [Device.Submit.loop, hx, hm, hxa] using this

/-- A `Submit` that the kernel accepts, with a script that begins with successful
reapings, one of them of the URB itself, returns normally at the first of these. -/
theorem Submit_reaps (urb : Urb) (t : Int) (d : Device) (p₁ : List ReapCall) (c : ReapCall)
    (rest : List ReapCall) (hs : 0 ≤ d.submitResults.headD 0)
    (hscript : d.reapCalls = p₁ ++ c :: rest)
    (hok : ∀ x ∈ p₁, Device.Reap t x = .ok x.urb) (hne : ∀ x ∈ p₁, x.urb ≠ urb.Addr)
    (hc : Device.Reap t c = .ok urb.Addr) :
    (Device.Submit urb t d).1 = .ok (urb.complete c.data) ∧
    (Device.Submit urb t d).2.reapCalls = rest ∧
    (Device.Submit urb t d).2.submitResults = d.submitResults.tail ∧
    (Device.Submit urb t d).2._controls = d._controls ∧
    (Device.Submit urb t d).2.controlResults = d.controlResults := by
  rcases d with ⟨fd, urbs, controls, submitResults, reapCalls, controlResults, log⟩
  simp only [] at hscript hs
  subst hscript
  obtain ⟨h1, h2, h3, h4, h5⟩ := Submit_loop_reaps urb t c rest hc p₁
    { _fd := fd, _urbs := inserted urbs urb.Addr, _controls := controls,
      submitResults := submitResults.tail, reapCalls := p₁ ++ c :: rest,
      controlResults := controlResults,
      log := log ++ [Event.SUBMITURB urb.Addr urb.KernelUrb urb.payload] }
    hok hne (mem_inserted _ _)
  have hsub := Urb_Submit_nonneg urb
    { _fd := fd, _urbs := urbs, _controls := controls, submitResults := submitResults,
      reapCalls := p₁ ++ c :: rest, controlResults := controlResults, log := log }
    (not_lt.2 hs)
  simp only [Device.Submit, hsub]
  simp only [inserted] at h1 h2 h3 h4 h5
  rcases hl : Device.Submit.loop urb t (p₁ ++ c :: rest)
      { _fd := fd, _urbs := if urb.Addr ∈ urbs then urbs else urbs ++ [urb.Addr],
        _controls := controls, submitResults := submitResults.tail,
        reapCalls := p₁ ++ c :: rest, controlResults := controlResults,
        log := log ++ [Event.SUBMITURB urb.Addr urb.KernelUrb urb.payload] } with ⟨r, d'⟩
  rw [hl] at h1 h2 h3 h4 h5
  simp only [] at h1 h2 h3 h4 h5
  subst h1
  exact ⟨rfl, h2, h3, h4, h5⟩

theorem controlAnswer_nonneg (d : Device) (h : ∀ a ∈ d.controlResults, 0 ≤ a.r) (i : Nat) :
    0 ≤ (d.controlAnswer i).r := by
  unfold Device.controlAnswer
  rw [List.getD_eq_getElem?_getD]
  cases hi : d.controlResults[i]? with
  | none => simp
  | some a => exact h a (List.getElem?_mem hi)

/-- With no interrupting closure in the queue and no failing control ioctl,
`ProcessControl` returns normally and leaves the queue empty. -/
theorem ProcessControl_quiet (d : Device)
    (hq : ∀ c ∈ d._controls, c.interruptCurrentTransaction = false)
    (ha : ∀ a ∈ d.controlResults, 0 ≤ a.r) :
    (Device.ProcessControl d).1 = .ok () ∧
    (Device.ProcessControl d).2._controls = [] ∧
    (Device.ProcessControl d).2.reapCalls = d.reapCalls ∧
    (Device.ProcessControl d).2.submitResults = d.submitResults ∧
    (∀ a ∈ (Device.ProcessControl d).2.controlResults, 0 ≤ a.r) := by
  obtain ⟨k, hk, -, h2, -, -, h5, h6, h7, -, hres⟩ := ProcessControl_loop_spec d._controls d
  rw [show Device.ProcessControl.loop d._controls d = Device.ProcessControl d from rfl]
    at h2 h5 h6 h7 hres
  have hctl : ∀ a ∈ (Device.ProcessControl d).2.controlResults, 0 ≤ a.r := by
    rw [h7]; exact fun a hmem => ha a (List.mem_of_mem_drop hmem)
  cases hr : (Device.ProcessControl d).1 with
  | ok v =>
    rw [hr] at hres
    simp only [] at hres
    refine ⟨rfl, ?_, h6, h5, hctl⟩
    rw [h2, hres.1]; simp
  | error e =>
    rw [hr] at hres
    simp only [] at hres
    obtain ⟨-, c, hc, he⟩ := hres
    have hcq := hq c (List.getElem?_mem hc)
    have hn := controlAnswer_nonneg d ha (k - 1)
    simp [ControlClosure.result, hcq, hn] at he

theorem headD_nonneg (l : List Int) (h : ∀ r ∈ l, 0 ≤ r) : 0 ≤ l.headD 0 := by
  cases l with
  | nil => simp
  | cons r l => simpa using h r (List.mem_cons_self _ _)

/-- One `Submit` followed by `ProcessControl` on a cooperative device whose script
begins with successful reapings, one of them of the URB itself. -/
theorem cooperative_step (urb : Urb) (t : Int) (d : Device) (pre post : List ReapCall)
    (hcoop : d.cooperative) (hscript : d.reapCalls = pre ++ post)
    (hpre : ∀ x ∈ pre, Device.Reap t x = .ok x.urb)
    (hown : 1 ≤ (pre.filter (fun x => x.urb = urb.Addr)).length) :
    ∃ p₁ c p₂, pre = p₁ ++ c :: p₂ ∧ (∀ x ∈ p₁, x.urb ≠ urb.Addr) ∧ c.urb = urb.Addr ∧
      pre.filter (fun x => x.urb = urb.Addr) = c :: p₂.filter (fun x => x.urb = urb.Addr) ∧
      Device.Submit urb t d = (.ok (urb.complete c.data), (Device.Submit urb t d).2) ∧
      Device.ProcessControl (Device.Submit urb t d).2
        = (.ok (), (Device.ProcessControl (Device.Submit urb t d).2).2) ∧
      (Device.ProcessControl (Device.Submit urb t d).2).2.cooperative ∧
      (Device.ProcessControl (Device.Submit urb t d).2).2.reapCalls = p₂ ++ post := by
  obtain ⟨p₁, c, p₂, hsplit, hne, hc, hcount⟩ := exists_first_own urb.Addr pre hown
  obtain ⟨hs, hq, ha⟩ := hcoop
  have hcok : Device.Reap t c = .ok urb.Addr := by
    rw [← hc]; exact hpre c (by rw [hsplit]; simp)
  obtain ⟨s1, s2, s3, s4, s5⟩ := Submit_reaps urb t d p₁ c (p₂ ++ post) (headD_nonneg _ hs)
    (by rw [hscript, hsplit]; simp) (fun x hx => hpre x (by rw [hsplit]; simp [hx])) hne hcok
  obtain ⟨q1, q2, q3, q4, q5⟩ := ProcessControl_quiet (Device.Submit urb t d).2
    (by rw [s4]; exact hq) (by rw [s5]; exact ha)
  refine ⟨p₁, c, p₂, hsplit, hne, hc, hcount, Prod.ext s1 rfl, Prod.ext q1 rfl, ⟨?_, ?_, q5⟩, ?_⟩
  · rw [q4, s3]; exact fun r hr => hs r (List.mem_of_mem_tail hr)
  · rw [q2]; simp
  · rw [q3, s2]

theorem Read_fills (s : InputStream) (T : Nat) (h : s.fills T) :
    s.Read T = (s.data.take T, { data := s.data.drop T, limits := s.limits.tail }) ∧
    InputStream.fills { data := s.data.drop T, limits := s.limits.tail } T := by
  constructor
  · have : min T (s.limits.headD T) = T := by
      cases hl : s.limits with
      | nil => simp
      | cons l ls =>
        have := h l (by rw [hl]; simp)
        simp; omega
    simp only [InputStream.Read, this]
  · exact fun l hl => h l (List.mem_of_mem_tail hl)

theorem WriteBulk_loop_fills (t : Int) (T : Nat) (hT : 0 < T) (fuel : Nat) :
    ∀ (s : InputStream) (urb : Urb) (c : Bool) (d : Device),
      urb.Buffer.length = T → s.fills T → s.data.length / T + 1 ≤ fuel →
      ∃ res s' d' evs,
        Device.WriteBulk.loop t T fuel urb c s d = (some res, s', d') ∧
        d'.log = d.log ++ evs ∧
        (res = .ok () → s'.data = [] ∧
          (submitted evs).map (fun v => (v.1.buffer_length, v.2))
            = (chunks T (s.data.length / T) s.data).map (fun p => (p.length, p))) := by
  induction fuel with
  | zero => intro s urb c d _ _ h; exact absurd h (by simp)
  | succ fuel ih =>
    intro s urb c d hB hs hfuel
    obtain ⟨hread, hs'⟩ := Read_fills s T hs
    obtain ⟨evs, d', hlog, hsub, -, h⟩ := WriteBulk_loop_step t T fuel urb c s d
    have hbl := Send_buffer_length urb s c
    rw [Send_payload, hB, hread] at hlog
    rw [Send_stream, Send_fst, hB, hread] at h
    rw [hB, hread] at hbl
    simp only [] at hlog h hbl
    rcases h with ⟨e, he⟩ | ⟨data, he⟩
    · exact ⟨_, _, _, _, he, hlog, by simp⟩
    by_cases hN : T ≤ s.data.length
    · have hr : (List.take T s.data).length = T := by simp; omega
      rw [if_pos hr] at he
      have hB' : (((urb.Send s).2.1.SetContinuationFlag c).complete data).Buffer.length = T := by
        rw [complete_Buffer_length, Send_Buffer_length, hB]
        rw [Send_Buffer_length, Send_buffer_length, hB]
        exact Read_length_le _ _
      obtain ⟨res, s', d'', evs2, hrun, hlog2, hok⟩ :=
        ih { data := s.data.drop T, limits := s.limits.tail } _ true d' hB' hs'
        (by
          have := Nat.div_eq_sub_div hT hN
          simp only [List.length_drop]; omega)
      refine ⟨res, s', d'', Event.SUBMITURB urb.Addr
        ((urb.Send s).2.1.SetContinuationFlag c).KernelUrb
        (List.take T s.data) :: (evs ++ evs2), by rw [he, hrun], by rw [hlog2, hlog]; simp, ?_⟩
      intro hres
      obtain ⟨hs'', hch⟩ := hok hres
      refine ⟨hs'', ?_⟩
      simp only [submitted_cons_submit, submitted_append, hsub, List.nil_append, List.map_cons,
        hch, List.length_drop, hbl]
      rw [Nat.div_eq_sub_div hT hN]
      simp [chunks]
    · have hlt : s.data.length < T := not_le.1 hN
      have hr : (List.take T s.data).length ≠ T := by simp; omega
      rw [if_neg hr] at he
      refine ⟨_, _, _, _, he, hlog, ?_⟩
      intro _
      simp only [submitted_cons_submit, hsub, List.map_cons, List.map_nil, hbl,
        Nat.div_eq_of_lt hlt, chunks]
      simp [List.take_of_length_le hlt.le, List.drop_of_length_le hlt.le]

theorem WriteBulk_loop_cooperative (t : Int) (T : Nat) (hT : 0 < T) (fuel : Nat) :
    ∀ (s : InputStream) (urb : Urb) (c : Bool) (d : Device) (pre post : List ReapCall),
      urb.Buffer.length = T → s.fills T → s.data.length / T + 1 ≤ fuel →
      d.cooperative → d.reapCalls = pre ++ post →
      (∀ x ∈ pre, Device.Reap t x = .ok x.urb) →
      s.data.length / T + 1 ≤ (pre.filter (fun x => x.urb = urb.Addr)).length →
      (Device.WriteBulk.loop t T fuel urb c s d).1 = some (.ok ()) := by
  induction fuel with
  | zero => intro s urb c d pre post _ _ h; exact absurd h (by simp)
  | succ fuel ih =>
    intro s urb c d pre post hB hs hfuel hcoop hscript hpre hown
    obtain ⟨hread, hs'⟩ := Read_fills s T hs
    have haddr : ((urb.Send s).2.1.SetContinuationFlag c).Addr = urb.Addr := by
      cases c <;> rfl
    obtain ⟨p₁, x, p₂, hsplit, -, -, hfilter, hS, hP, hcoop', hscript'⟩ :=
      cooperative_step ((urb.Send s).2.1.SetContinuationFlag c) t d pre post hcoop hscript hpre
        (by rw [haddr]; exact Nat.le_trans (Nat.le_add_left 1 _) hown)
    rw [haddr] at hfilter
    have hcount := congrArg List.length hfilter
    simp only [List.length_cons] at hcount
    have hfst : (urb.Send s).1 = (s.data.take T).length := by
      rw [Send_fst, hB, hread]
    have hstream : (urb.Send s).2.2 = { data := s.data.drop T, limits := s.limits.tail } := by
      rw [Send_stream, hB, hread]
    have hunf : Device.WriteBulk.loop t T (fuel + 1) urb c s d =
        if (urb.Send s).1 = T then
          Device.WriteBulk.loop t T fuel
            (((urb.Send s).2.1.SetContinuationFlag c).complete x.data) true (urb.Send s).2.2
            (Device.ProcessControl
              (Device.Submit ((urb.Send s).2.1.SetContinuationFlag c) t d).2).2
        else (some (.ok ()), (urb.Send s).2.2,
            (Device.ProcessControl
              (Device.Submit ((urb.Send s).2.1.SetContinuationFlag c) t d).2).2) := by
      rw [Device.WriteBulk.loop]
      rcases hsend : urb.Send s with ⟨r, urb1, s1⟩
      rw [hsend] at hS hP
      simp only [] at hS hP ⊢
      rw [hS]
      simp only []
      rw [hP]
    rw [hunf]
    by_cases hN : T ≤ s.data.length
    · have hr : (urb.Send s).1 = T := by rw [hfst]; simp; omega
      rw [if_pos hr, hstream]
      have hdiv := Nat.div_eq_sub_div hT hN
      refine ih _ _ true _ p₂ post ?_ hs' ?_ hcoop' hscript'
        (fun y hy => hpre y (by rw [hsplit]; simp [hy])) ?_
      · rw [complete_Buffer_length, Send_Buffer_length, hB]
        rw [Send_Buffer_length, Send_buffer_length, hB]
        exact Read_length_le _ _
      · simp only [List.length_drop]; omega
      · rw [complete_Addr, haddr]
        simp only [List.length_drop]; omega
    · have hr : (urb.Send s).1 ≠ T := by rw [hfst]; simp; omega
      rw [if_neg hr]

theorem Write_accepts (o : OutputStream) (T : Nat) (bytes : List Nat) (h : o.accepts T)
    (hlen : bytes.length ≤ T) :
    o.Write bytes = (bytes.length, { written := o.written ++ bytes, accept := o.accept.tail }) ∧
    OutputStream.accepts { written := o.written ++ bytes, accept := o.accept.tail } T := by
  constructor
  · have : min bytes.length (o.accept.headD bytes.length) = bytes.length := by
      cases hl : o.accept with
      | nil => simp
      | cons l ls =>
        have := h l (by rw [hl]; simp)
        simp; omega
    simp only [OutputStream.Write, this, List.take_length]
  · exact fun l hl => h l (List.mem_of_mem_tail hl)

theorem complete_Recv_accepts (u : Urb) (data : List Nat) (o : OutputStream) (T : Nat)
    (hbl : u.KernelUrb.buffer_length = T) (h : o.accepts T) :
    (u.complete data).Recv o
      = ((data.take T).length,
         { written := o.written ++ data.take T, accept := o.accept.tail }) := by
  have hb : (u.complete data).Buffer.take (u.complete data).KernelUrb.actual_length
      = data.take T := by
    simp [Urb.complete, hbl]
  rw [Urb.Recv, hb]
  exact (Write_accepts o T (data.take T) h (by simp)).1

theorem ReadBulk_loop_accepts (t : Int) (T fuel : Nat) :
    ∀ (urb : Urb) (c : Bool) (o : OutputStream) (d : Device) (o' : OutputStream) (d' : Device),
      urb.Buffer.length = T → urb.KernelUrb.buffer_length = T → o.accepts T →
      Device.ReadBulk.loop t T fuel urb c o d = (some (.ok ()), o', d') →
      ∃ evs full last, d'.log = d.log ++ evs ∧
        received urb.Addr T evs = full ++ [last] ∧
        (∀ p ∈ full, p.length = T) ∧ last.length < T ∧
        o'.written = o.written ++ (full ++ [last]).flatten ∧
        turns urb.Addr evs = (List.replicate (full.length + 1) [true, false]).flatten := by
  induction fuel with
  | zero => intro urb c o d o' d' _ _ _ h; simp [Device.ReadBulk.loop] at h
  | succ fuel ih =>
    intro urb c o d o' d' hB hbl hacc hrun
    obtain ⟨evs, d1, hlog, hsub, -, h⟩ := ReadBulk_loop_step t T fuel urb c o d
    rcases h with ⟨e, he⟩ | ⟨pre, data, cs, hpre, rfl, he⟩
    · rw [he] at hrun; simp at hrun
    rw [complete_Recv_accepts _ data o T
      (by rw [SetContinuationFlag_buffer_length, hbl]) hacc] at he
    simp only [] at he
    rw [hrun] at he
    have hlen : (data.take T).length ≤ T := by simp
    by_cases hr : (data.take T).length = T
    · rw [if_pos hr] at he
      obtain ⟨evs2, full, last, hlog2, hrec, hfull, hlast, ho, hturns⟩ :=
        ih _ true _ d1 o' d'
          (by rw [complete_Buffer_length, SetContinuationFlag_Buffer, hB]
              rw [SetContinuationFlag_Buffer, SetContinuationFlag_buffer_length, hB, hbl])
          (by rw [complete_buffer_length, SetContinuationFlag_buffer_length, hbl])
          (Write_accepts o T (data.take T) hacc hlen).2 he.symm
      rw [complete_Addr, SetContinuationFlag_Addr] at hrec hturns
      refine ⟨Event.SUBMITURB urb.Addr (urb.SetContinuationFlag c).KernelUrb
          (urb.SetContinuationFlag c).payload ::
          (pre.map Event.reaped ++ [Event.REAPURB urb.Addr data]
            ++ cs.map ControlClosure.event) ++ evs2,
        data.take T :: full, last, ?_, ?_, ?_, hlast, ?_, ?_⟩
      · rw [hlog2, hlog]; simp
      · simp [received_reaped _ _ _ hpre, hrec]
      · intro p hp
        rcases List.mem_cons.1 hp with rfl | hp
        · exact hr
        · exact hfull p hp
      · rw [ho]; simp
      · simp [turns_reaped _ _ hpre, hturns, List.replicate_succ]
    · rw [if_neg hr] at he
      simp only [Prod.mk.injEq, Option.some.injEq, true_and] at he
      obtain ⟨ho, hd⟩ := he
      subst hd
      refine ⟨_, [], data.take T, hlog, ?_, by simp, by omega, ?_, ?_⟩
      · simp [received_reaped _ _ _ hpre]
      · rw [ho]; simp
      · simp [turns_reaped _ _ hpre]

theorem Submit_loop_consumes (urb : Urb) (t : Int) :
    ∀ (script : List ReapCall) (d : Device) (u : Urb),
      (Device.Submit.loop urb t script d).1 = .ok u →
      (Device.Submit.loop urb t script d).2.reapCalls.length < script.length := by
  intro script
  induction script with
  | nil => intro d u h; simp [Device.Submit.loop] at h
  | cons x rest ih =>
    intro d u h
    cases hx : Device.Reap t x with
    | error e => simp [Device.Submit.loop, hx] at h
    | ok a =>
      by_cases hm : a ∈ d._urbs
      · by_cases ha : a = urb.Addr
        · subst ha
          simp [Device.Submit.loop, hx, hm]
        · simp only [Device.Submit.loop, hx, hm, ha, if_true, if_false] at h ⊢
          exact Nat.lt_succ_of_lt (ih _ u h)
      · simp only [Device.Submit.loop, hx, hm, if_false] at h ⊢
        exact Nat.lt_succ_of_lt (ih _ u h)

theorem Submit_consumes (urb : Urb) (t : Int) (d : Device) (u : Urb)
    (h : (Device.Submit urb t d).1 = .ok u) :
    (Device.Submit urb t d).2.reapCalls.length < d.reapCalls.length := by
  by_cases hs : d.submitResults.headD 0 < 0
  · simp [Device.Submit, Urb_Submit_neg urb d hs] at h
  · simp only [Device.Submit, Urb_Submit_nonneg urb d hs] at h ⊢
    split at h
    · next u' d' heq =>
      have := Submit_loop_consumes urb t _ _ u' (by rw [heq])
      rw [heq] at this
      simpa [heq] using this
    · next e d' heq => simp at h

theorem ReadBulk_loop_terminates (t : Int) (T fuel : Nat) :
    ∀ (urb : Urb) (c : Bool) (o : OutputStream) (d : Device),
      d.reapCalls.length < fuel →
      ∃ res, (Device.ReadBulk.loop t T fuel urb c o d).1 = some res := by
  induction fuel with
  | zero => intro urb c o d h; exact absurd h (by simp)
  | succ fuel ih =>
    intro urb c o d hfuel
    rw [Device.ReadBulk.loop]
    simp only []
    rcases hS : Device.Submit (urb.SetContinuationFlag c) t d with ⟨r1, d1⟩
    cases r1 with
    | error e => exact ⟨_, rfl⟩
    | ok u =>
      have hcons := Submit_consumes (urb.SetContinuationFlag c) t d u (by rw [hS])
      rw [hS] at hcons
      simp only [] at hcons ⊢
      rcases hP : Device.ProcessControl d1 with ⟨r2, d2⟩
      cases r2 with
      | error e => exact ⟨_, rfl⟩
      | ok v =>
        obtain ⟨-, -, -, -, -, -, -, h6, -⟩ := ProcessControl_loop_spec d1._controls d1
        rw [show Device.ProcessControl.loop d1._controls d1 = Device.ProcessControl d1 from rfl,
          hP] at h6
        simp only [] at h6 ⊢
        split
        · exact ih _ _ _ _ (by rw [h6]; omega)
        · exact ⟨_, rfl⟩

theorem ReadBulk_loop_cooperative (t : Int) (T : Nat) (x : ReapCall) (post : List ReapCall)
    (hshort : x.data.length < T) (fuel : Nat) :
    ∀ (urb : Urb) (c : Bool) (o : OutputStream) (d : Device) (pre : List ReapCall),
      urb.Buffer.length = T → urb.KernelUrb.buffer_length = T → o.accepts T →
      d.cooperative → d.reapCalls = pre ++ x :: post →
      (∀ y ∈ pre, Device.Reap t y = .ok y.urb) →
      (∀ y ∈ pre, y.urb = urb.Addr → T ≤ y.data.length) →
      Device.Reap t x = .ok urb.Addr →
      (pre.filter (fun y => y.urb = urb.Addr)).length + 1 ≤ fuel →
      (Device.ReadBulk.loop t T fuel urb c o d).1 = some (.ok ()) ∧
      (Device.ReadBulk.loop t T fuel urb c o d).2.2.reapCalls = post ∧
      (Device.ReadBulk.loop t T fuel urb c o d).2.1.written
        = o.written ++ ((pre.filter (fun y => y.urb = urb.Addr) ++ [x]).map
            (fun y => y.data.take T)).flatten := by
  induction fuel with
  | zero => intro urb c o d pre _ _ _ _ _ _ _ _ h; exact absurd h (by simp)
  | succ fuel ih =>
    intro urb c o d pre hB hbl hacc hcoop hscript hpre hfull hx hfuel
    have haddr := SetContinuationFlag_Addr urb c
    have hbl' : (urb.SetContinuationFlag c).KernelUrb.buffer_length = T := by
      rw [SetContinuationFlag_buffer_length, hbl]
    by_cases hown : 1 ≤ (pre.filter (fun y => y.urb = urb.Addr)).length
    · obtain ⟨p₁, y, p₂, hsplit, -, hy, hfilter, hS, hP, hcoop', hscript'⟩ :=
        cooperative_step (urb.SetContinuationFlag c) t d pre (x :: post) hcoop hscript hpre
          (by rw [haddr]; exact hown)
      rw [haddr] at hfilter hy
      have hymem : y ∈ pre := by rw [hsplit]; simp
      have hlen : (y.data.take T).length = T := by
        have := hfull y hymem hy
        simp; omega
      have hunf : Device.ReadBulk.loop t T (fuel + 1) urb c o d =
          Device.ReadBulk.loop t T fuel ((urb.SetContinuationFlag c).complete y.data) true
            { written := o.written ++ y.data.take T, accept := o.accept.tail }
            (Device.ProcessControl (Device.Submit (urb.SetContinuationFlag c) t d).2).2 := by
        rw [Device.ReadBulk.loop]
        simp only []
        rw [hS]
        simp only []
        rw [hP]
        simp only []
        rw [complete_Recv_accepts _ y.data o T hbl' hacc]
        simp only [hlen, if_true]
      rw [hunf, hfilter]
      have hcount := congrArg List.length hfilter
      simp only [List.length_cons] at hcount
      obtain ⟨r1, r2, r3⟩ := ih ((urb.SetContinuationFlag c).complete y.data) true
        { written := o.written ++ y.data.take T, accept := o.accept.tail } _ p₂
        (by rw [complete_Buffer_length, SetContinuationFlag_Buffer, hB]
            rw [SetContinuationFlag_Buffer, SetContinuationFlag_buffer_length, hB, hbl])
        (by rw [complete_buffer_length, hbl'])
        (Write_accepts o T (y.data.take T) hacc (by simp)).2 hcoop' hscript'
        (fun z hz => hpre z (by rw [hsplit]; simp [hz]))
        (fun z hz hzu => hfull z (by rw [hsplit]; simp [hz])
          (by rw [hzu, complete_Addr, haddr]))
        (by rw [complete_Addr, haddr]; exact hx)
        (by rw [complete_Addr, haddr]; omega)
      rw [complete_Addr, haddr] at r3
      refine ⟨r1, r2, ?_⟩
      rw [r3]
      simp
    · have hnone : ∀ z ∈ pre, z.urb ≠ (urb.SetContinuationFlag c).Addr := by
        intro z hz hzu
        apply hown
        rw [haddr] at hzu
        have : z ∈ pre.filter (fun y => y.urb = urb.Addr) := by
          simp [List.mem_filter, hz, hzu]
        exact List.length_pos_of_mem this
      have hempty : pre.filter (fun y => y.urb = urb.Addr) = [] := by
        apply List.eq_nil_of_length_eq_zero
        omega
      obtain ⟨hs, hq, ha⟩ := hcoop
      obtain ⟨s1, s2, s3, s4, s5⟩ := Submit_reaps (urb.SetContinuationFlag c) t d pre x post
        (headD_nonneg _ hs) hscript hpre hnone (by rw [haddr]; exact hx)
      obtain ⟨q1, -, q3, -, -⟩ := ProcessControl_quiet
        (Device.Submit (urb.SetContinuationFlag c) t d).2
        (by rw [s4]; exact hq) (by rw [s5]; exact ha)
      have hS : Device.Submit (urb.SetContinuationFlag c) t d
          = (.ok ((urb.SetContinuationFlag c).complete x.data),
             (Device.Submit (urb.SetContinuationFlag c) t d).2) := Prod.ext s1 rfl
      have hP : Device.ProcessControl (Device.Submit (urb.SetContinuationFlag c) t d).2
          = (.ok (), (Device.ProcessControl
              (Device.Submit (urb.SetContinuationFlag c) t d).2).2) := Prod.ext q1 rfl
      have hne : (x.data.take T).length ≠ T := by simp; omega
      have hunf : Device.ReadBulk.loop t T (fuel + 1) urb c o d =
          (some (.ok ()), { written := o.written ++ x.data.take T, accept := o.accept.tail },
            (Device.ProcessControl (Device.Submit (urb.SetContinuationFlag c) t d).2).2) := by
        rw [Device.ReadBulk.loop]
        simp only []
        rw [hS]
        simp only []
        rw [hP]
        simp only []
        rw [complete_Recv_accepts _ x.data o T hbl' hacc]
        simp only [hne, if_false]
      rw [hunf, hempty]
      refine ⟨rfl, ?_, by simp⟩
      simp only []
      rw [q3, s2]

theorem WriteBulk_fills (k addr : Nat) (ep : Endpoint) (s : InputStream) (timeout : Int)
    (d : Device) (hm : 0 < ep.MaxPacketSize) (hs : s.fills (1024 * ep.MaxPacketSize)) :
    ∃ res s' d' evs,
      Device.WriteBulk (s.data.length / (1024 * ep.MaxPacketSize) + 1 + k) addr ep
          s timeout d = (some res, s', d') ∧
      d.since d' = evs ∧
      (res = .ok () → s'.data = [] ∧
        (submitted evs).map (fun v => (v.1.buffer_length, v.2))
          = (chunks (1024 * ep.MaxPacketSize) (s.data.length / (1024 * ep.MaxPacketSize))
              s.data).map (fun p => (p.length, p))) := by
  obtain ⟨res, s', d', evs, h1, h2, h3⟩ := WriteBulk_loop_fills timeout (1024 * ep.MaxPacketSize)
    (by omega) (s.data.length / (1024 * ep.MaxPacketSize) + 1 + k) s
    (Urb.new addr d._fd USBDEVFS_URB_TYPE_BULK ep) false d (new_Buffer_length _ _ _) hs (by omega)
  refine ⟨res, s', d', evs, ?_, since_eq _ _ _ h2, h3⟩
  rw [Device.WriteBulk, new_Buffer_length]
  exact h1

/-! ## The claims -/

/-- C1.  In the URBs a bulk write submits, for any input stream, any kernel and any
number of iterations of its loop, the first URB has the flag
`USBDEVFS_URB_BULK_CONTINUATION` clear and every URB after the first has it set. -/
theorem WriteBulk_continuation (fuel addr : Nat) (ep : Endpoint) (inputStream : InputStream)
    (timeout : Int) (d : Device) :
    ∃ u rest,
      submitted (d.since (Device.WriteBulk (fuel + 1) addr ep inputStream timeout d).2.2)
        = u :: rest ∧
      u.1.continuation = false ∧ ∀ v ∈ rest, v.1.continuation = true := by
  obtain ⟨evs, hlog, h⟩ := WriteBulk_loop_shape timeout
    (Urb.new addr d._fd USBDEVFS_URB_TYPE_BULK ep).Buffer.length (fuel + 1)
    (Urb.new addr d._fd USBDEVFS_URB_TYPE_BULK ep) false inputStream d
  rcases h with ⟨-, h0⟩ | ⟨k, p, tail, rfl, hk, htail⟩
  · simp at h0
  · refine ⟨(k, p), submitted tail, ?_, hk, htail⟩
    rw [Device.WriteBulk, since_eq _ _ _ hlog]
    simp

/-- C2, as stated, fails.  The stream holds 4 bytes, a nonzero multiple of the
max-packet-size 2; the bulk write returns normally, the only URB submitted carries
the 4 bytes and no URB of length zero follows it. -/
theorem WriteBulk_no_zero_length_urb :
    4 % 2 = 0 ∧
    (Device.WriteBulk 1 100 { Address := 1, MaxPacketSize := 2 }
      { data := [1, 2, 3, 4], limits := [] } 0 Device.ready).1 = some (.ok ()) ∧
    (submitted (Device.WriteBulk 1 100 { Address := 1, MaxPacketSize := 2 }
      { data := [1, 2, 3, 4], limits := [] } 0 Device.ready).2.2.log).map
        (fun v => (v.1.buffer_length, v.2)) = [(4, [1, 2, 3, 4])] := by
  decide!

/-- C2, amended.  When the stream holds `N > 0` bytes, `N` an exact multiple of the
capacity `T = 1024 * m` of the URB buffer, fills every read as long as bytes remain,
and the bulk write ends without an exception, the URBs submitted are `N / T` URBs
of `T` bytes each, which carry the `N` bytes in order, followed by exactly one URB
of length zero. -/
theorem WriteBulk_zero_length_urb_after_full_buffers (k addr : Nat) (ep : Endpoint)
    (bytes : List Nat) (timeout : Int) (d : Device) (hN : 0 < bytes.length)
    (hdiv : bytes.length % (1024 * ep.MaxPacketSize) = 0)
    (hok : (Device.WriteBulk (bytes.length / (1024 * ep.MaxPacketSize) + 1 + k) addr ep
        { data := bytes, limits := [] } timeout d).1 = some (.ok ())) :
    ∃ full : List (List Nat),
      (submitted (d.since (Device.WriteBulk
          (bytes.length / (1024 * ep.MaxPacketSize) + 1 + k) addr ep
          { data := bytes, limits := [] } timeout d).2.2)).map
        (fun v => (v.1.buffer_length, v.2)) = full.map (fun p => (p.length, p)) ++ [(0, [])] ∧
      full.length = bytes.length / (1024 * ep.MaxPacketSize) ∧
      (∀ p ∈ full, p.length = 1024 * ep.MaxPacketSize) ∧
      full.flatten = bytes := by
  have hm : 0 < ep.MaxPacketSize := by
    rcases Nat.eq_zero_or_pos ep.MaxPacketSize with h0 | h0
    · rw [h0, Nat.mul_zero, Nat.mod_zero] at hdiv; omega
    · exact h0
  obtain ⟨res, s', d', evs, h1, h2, h3⟩ := WriteBulk_full k addr ep bytes timeout d hm
  rw [h1] at hok ⊢
  simp only [Option.some.injEq] at hok
  obtain ⟨-, hch⟩ := h3 hok
  simp only [h2, hch]
  obtain ⟨full, last, c1, c2, c3, c4⟩ := chunks_split (1024 * ep.MaxPacketSize)
    (bytes.length / (1024 * ep.MaxPacketSize)) bytes (Nat.div_mul_le_self _ _)
  have hlast : last = [] := by
    apply List.eq_nil_of_length_eq_zero
    rw [c4]
    have := Nat.div_add_mod bytes.length (1024 * ep.MaxPacketSize)
    rw [Nat.mul_comm] at this
    omega
  subst hlast
  refine ⟨full, by rw [c1]; simp, c2, c3, ?_⟩
  have := chunks_flatten (1024 * ep.MaxPacketSize) (bytes.length / (1024 * ep.MaxPacketSize)) bytes
  rw [c1] at this
  simpa using this

/-- An instance of the amended C2: 1024 bytes on an endpoint of max-packet-size 1, whose
URB buffer holds 1024 bytes, with a kernel that reaps each URB at once. -/
theorem WriteBulk_zero_length_urb_after_full_buffers_witness :
    ∃ full : List (List Nat),
      (submitted (Device.ready.since (Device.WriteBulk
          ((List.replicate 1024 7).length / (1024 * Endpoint.small.MaxPacketSize) + 1 + 0) 100
          Endpoint.small { data := List.replicate 1024 7, limits := [] } 0 Device.ready).2.2)).map
        (fun v => (v.1.buffer_length, v.2)) = full.map (fun p => (p.length, p)) ++ [(0, [])] ∧
      full.length = (List.replicate 1024 7).length / (1024 * Endpoint.small.MaxPacketSize) ∧
      (∀ p ∈ full, p.length = 1024 * Endpoint.small.MaxPacketSize) ∧
      full.flatten = List.replicate 1024 7 :=
  WriteBulk_zero_length_urb_after_full_buffers 0 100 Endpoint.small (List.replicate 1024 7) 0
    Device.ready (by decide!) (by decide!) (by decide!)

/-- C3, as stated, fails.  The stream holds 5 bytes, fewer than the 1024 bytes of the
URB buffer, so that no read ever finds enough bytes to fill the buffer and the
condition of the claim says nothing about its reads; its first read returns 2
bytes.  The bulk write returns normally after one URB of 2 bytes, not of
`5 % 1024 = 5` bytes, and 3 bytes of the stream are never sent. -/
theorem WriteBulk_short_read_ends_write :
    [1, 2, 3, 4, 5].length < 1024 * Endpoint.small.MaxPacketSize ∧
    (Device.WriteBulk 5 100 Endpoint.small { data := [1, 2, 3, 4, 5], limits := [2] } 0
      Device.ready).1 = some (.ok ()) ∧
    (submitted (Device.WriteBulk 5 100 Endpoint.small
      { data := [1, 2, 3, 4, 5], limits := [2] } 0 Device.ready).2.2.log).map
        (fun v => (v.1.buffer_length, v.2)) = [(2, [1, 2])] ∧
    (Device.WriteBulk 5 100 Endpoint.small { data := [1, 2, 3, 4, 5], limits := [2] } 0
      Device.ready).2.1.data = [3, 4, 5] ∧
    [1, 2, 3, 4, 5].length % (1024 * Endpoint.small.MaxPacketSize) = 5 := by
  decide!

/-- C3, amended.  Take an endpoint with positive max-packet-size `m`, `T = 1024 * m`,
and a stream of `N` bytes whose every read returns as many bytes as are asked for,
or all that remain when these are fewer.  A bulk write from it ends within
`N / T + 1` iterations of its loop, whatever the kernel answers.  Whenever it ends
without an exception, the stream is used up and the URBs submitted are `N / T`
URBs of `T` bytes followed by one last URB of `N % T` bytes (fewer than `T`, the
read on which the loop ends); each URB has `buffer_length` equal to the length of
its payload, and the payloads, concatenated in the order of submission, are the
bytes of the stream.  And it does end without an exception when no submission or
control transfer raises: when the device is cooperative and the kernel's script
begins with successful reapings, `N / T + 1` of them of the URB of the write. -/
theorem WriteBulk_terminates_with_chunks (k addr : Nat) (ep : Endpoint) (s : InputStream)
    (timeout : Int) (d : Device) (hm : 0 < ep.MaxPacketSize)
    (hs : s.fills (1024 * ep.MaxPacketSize)) :
    (∃ res, (Device.WriteBulk (s.data.length / (1024 * ep.MaxPacketSize) + 1 + k) addr ep
        s timeout d).1 = some res) ∧
    ((Device.WriteBulk (s.data.length / (1024 * ep.MaxPacketSize) + 1 + k) addr ep
        s timeout d).1 = some (.ok ()) →
      (Device.WriteBulk (s.data.length / (1024 * ep.MaxPacketSize) + 1 + k) addr ep
        s timeout d).2.1.data = [] ∧
      ∃ full last,
        (submitted (d.since (Device.WriteBulk
          (s.data.length / (1024 * ep.MaxPacketSize) + 1 + k) addr ep
          s timeout d).2.2)).map Prod.snd = full ++ [last] ∧
        full.length = s.data.length / (1024 * ep.MaxPacketSize) ∧
        (∀ p ∈ full, p.length = 1024 * ep.MaxPacketSize) ∧
        last.length = s.data.length % (1024 * ep.MaxPacketSize) ∧
        last.length < 1024 * ep.MaxPacketSize ∧
        (full ++ [last]).flatten = s.data ∧
        ∀ v ∈ submitted (d.since (Device.WriteBulk
          (s.data.length / (1024 * ep.MaxPacketSize) + 1 + k) addr ep
          s timeout d).2.2), v.1.buffer_length = v.2.length) ∧
    (∀ pre post : List ReapCall, d.cooperative → d.reapCalls = pre ++ post →
      (∀ x ∈ pre, Device.Reap timeout x = .ok x.urb) →
      s.data.length / (1024 * ep.MaxPacketSize) + 1
        ≤ (pre.filter (fun x => x.urb = addr)).length →
      (Device.WriteBulk (s.data.length / (1024 * ep.MaxPacketSize) + 1 + k) addr ep
        s timeout d).1 = some (.ok ())) := by
  have hT : 0 < 1024 * ep.MaxPacketSize := by omega
  refine ⟨?_, ?_, ?_⟩
  · obtain ⟨res, s', d', evs, h1, -, -⟩ := WriteBulk_fills k addr ep s timeout d hm hs
    rw [h1]; exact ⟨res, rfl⟩
  · obtain ⟨res, s', d', evs, h1, h2, h3⟩ := WriteBulk_fills k addr ep s timeout d hm hs
    rw [h1]
    intro hres
    simp only [Option.some.injEq] at hres
    obtain ⟨hs', hch⟩ := h3 hres
    simp only [h2, hs', true_and]
    obtain ⟨hp, hbl⟩ := map_eq_map_length
      (l := (submitted evs).map (fun v => (v.1.buffer_length, v.2))) (by simpa using hch)
    obtain ⟨full, last, c1, c2, c3, c4⟩ := chunks_split (1024 * ep.MaxPacketSize)
      (s.data.length / (1024 * ep.MaxPacketSize)) s.data (Nat.div_mul_le_self _ _)
    have hmod : last.length = s.data.length % (1024 * ep.MaxPacketSize) := by
      rw [c4]
      have := Nat.div_add_mod s.data.length (1024 * ep.MaxPacketSize)
      rw [Nat.mul_comm] at this
      omega
    refine ⟨full, last, ?_, c2, c3, hmod, ?_, ?_, ?_⟩
    · rw [← c1, ← hp]; simp
    · rw [hmod]; exact Nat.mod_lt _ hT
    · rw [← c1]; exact chunks_flatten _ _ _
    · intro v hv
      have := hbl (v.1.buffer_length, v.2) (by
        simp only [List.mem_map]
        exact ⟨v, hv, rfl⟩)
      simpa using this
  · intro pre post hcoop hscript hpre hown
    rw [Device.WriteBulk, new_Buffer_length]
    exact WriteBulk_loop_cooperative timeout (1024 * ep.MaxPacketSize) hT _ s
      (Urb.new addr d._fd USBDEVFS_URB_TYPE_BULK ep) false d pre post
      (new_Buffer_length _ _ _) hs (by omega) hcoop hscript hpre hown

/-- An instance of the amended C3: 1027 bytes on an endpoint of max-packet-size 1, whose
URB buffer holds 1024 bytes, with a kernel that reaps each URB at once.  The write
returns normally after a URB of 1024 bytes and a URB of 3 bytes. -/
theorem WriteBulk_terminates_with_chunks_witness :
    (Device.WriteBulk
        (InputStream.sample.data.length / (1024 * Endpoint.small.MaxPacketSize) + 1 + 0) 100
        Endpoint.small InputStream.sample 0 Device.ready).1 = some (.ok ()) ∧
    ∃ full last,
      (submitted (Device.ready.since (Device.WriteBulk
          (InputStream.sample.data.length / (1024 * Endpoint.small.MaxPacketSize) + 1 + 0) 100
          Endpoint.small InputStream.sample 0 Device.ready).2.2)).map Prod.snd
        = full ++ [last] ∧
      full.length = InputStream.sample.data.length / (1024 * Endpoint.small.MaxPacketSize) ∧
      last.length = InputStream.sample.data.length % (1024 * Endpoint.small.MaxPacketSize) ∧
      (full ++ [last]).flatten = InputStream.sample.data := by
  have h := WriteBulk_terminates_with_chunks 0 100 Endpoint.small InputStream.sample 0
    Device.ready (by decide) (by intro l hl; cases hl)
  have hok := h.2.2 Device.ready.reapCalls [] (by unfold Device.cooperative; decide)
    (List.append_nil _).symm (by decide) (by decide!)
  obtain ⟨-, full, last, h1, h2, -, h4, -, h6, -⟩ := h.2.1 hok
  exact ⟨hok, full, last, h1, h2, h4, h6⟩

/-- C4.  Take a bulk read on an endpoint of max-packet-size `m`, with `T = 1024 * m`,
into a stream that accepts every byte it is given.

* Allowed more iterations than the kernel's script has `Reap` answers, it ends.
* Whenever it ends without an exception, the submissions and reapings of its URB
  alternate, beginning with a submission and ending with a reaping; the payloads
  reaped are some payloads of exactly `T` bytes followed by one last payload of
  fewer than `T` bytes; and the stream has received exactly these payloads,
  concatenated in the order they were reaped.
* It does end without an exception when no submission or control transfer raises:
  let the device be cooperative and the kernel's script be successful reapings
  `pre`, in which every reaping of the URB of the read delivers at least `T` bytes,
  then a reaping `x` of that URB that delivers fewer than `T` bytes, then `post`.
  The read then returns normally, it has consumed the script up to and including
  `x` and nothing of `post`, and the stream has received the first `T` bytes of each
  reaping of its URB in `pre`, in order, followed by the bytes of `x`. -/
theorem ReadBulk_stops_at_short_packet (fuel addr : Nat) (ep : Endpoint) (o : OutputStream)
    (timeout : Int) (d : Device) (hacc : o.accepts (1024 * ep.MaxPacketSize)) :
    (d.reapCalls.length < fuel →
      ∃ res, (Device.ReadBulk fuel addr ep o timeout d).1 = some res) ∧
    ((Device.ReadBulk fuel addr ep o timeout d).1 = some (.ok ()) →
      ∃ full last,
        received addr (1024 * ep.MaxPacketSize)
          (d.since (Device.ReadBulk fuel addr ep o timeout d).2.2) = full ++ [last] ∧
        (∀ p ∈ full, p.length = 1024 * ep.MaxPacketSize) ∧
        last.length < 1024 * ep.MaxPacketSize ∧
        (Device.ReadBulk fuel addr ep o timeout d).2.1.written
          = o.written ++ (full ++ [last]).flatten ∧
        turns addr (d.since (Device.ReadBulk fuel addr ep o timeout d).2.2)
          = (List.replicate (full.length + 1) [true, false]).flatten) ∧
    (∀ (pre : List ReapCall) (x : ReapCall) (post : List ReapCall),
      d.cooperative → d.reapCalls = pre ++ x :: post →
      (∀ y ∈ pre, Device.Reap timeout y = .ok y.urb) →
      (∀ y ∈ pre, y.urb = addr → 1024 * ep.MaxPacketSize ≤ y.data.length) →
      Device.Reap timeout x = .ok addr → x.data.length < 1024 * ep.MaxPacketSize →
      (pre.filter (fun y => y.urb = addr)).length + 1 ≤ fuel →
      (Device.ReadBulk fuel addr ep o timeout d).1 = some (.ok ()) ∧
      (Device.ReadBulk fuel addr ep o timeout d).2.2.reapCalls = post ∧
      (Device.ReadBulk fuel addr ep o timeout d).2.1.written
        = o.written ++ ((pre.filter (fun y => y.urb = addr) ++ [x]).map
            (fun y => y.data.take (1024 * ep.MaxPacketSize))).flatten) := by
  refine ⟨?_, ?_, ?_⟩
  · intro hfuel
    exact ReadBulk_loop_terminates timeout _ fuel _ false o d hfuel
  · intro hok
    rcases hrun : Device.ReadBulk fuel addr ep o timeout d with ⟨res, o', d'⟩
    rw [hrun] at hok
    simp only [] at hok
    subst hok
    rw [Device.ReadBulk, new_Buffer_length] at hrun
    obtain ⟨evs, full, last, h1, h2, h3, h4, h5, h6⟩ :=
      ReadBulk_loop_accepts timeout (1024 * ep.MaxPacketSize) fuel
        (Urb.new addr d._fd USBDEVFS_URB_TYPE_BULK ep) false o d o' d'
        (new_Buffer_length _ _ _) (new_buffer_length _ _ _) hacc hrun
    refine ⟨full, last, ?_, h3, h4, h5, ?_⟩
    · rw [since_eq _ _ _ h1]; exact h2
    · rw [since_eq _ _ _ h1]; exact h6
  · intro pre x post hcoop hscript hpre hfull hx hshort hfuel
    rw [Device.ReadBulk, new_Buffer_length]
    exact ReadBulk_loop_cooperative timeout (1024 * ep.MaxPacketSize) x post hshort fuel
      (Urb.new addr d._fd USBDEVFS_URB_TYPE_BULK ep) false o d pre
      (new_Buffer_length _ _ _) (new_buffer_length _ _ _) hacc hcoop hscript hpre hfull hx hfuel

/-- An instance of C4: the device delivers 1024 bytes, then 3 bytes, on an endpoint
of max-packet-size 1; in between the kernel reaps a URB nobody waits for.  The read
returns normally after the second reaping of its URB, and the stream has received
the 1024 bytes followed by the 3 bytes. -/
theorem ReadBulk_stops_at_short_packet_witness :
    (∃ res, (Device.ReadBulk 4 100 Endpoint.small { written := [], accept := [] } 0
      Device.receiving).1 = some res) ∧
    ((Device.ReadBulk 4 100 Endpoint.small { written := [], accept := [] } 0
        Device.receiving).1 = some (.ok ()) ∧
      (Device.ReadBulk 4 100 Endpoint.small { written := [], accept := [] } 0
        Device.receiving).2.2.reapCalls = [] ∧
      (Device.ReadBulk 4 100 Endpoint.small { written := [], accept := [] } 0
        Device.receiving).2.1.written
        = [] ++ (([ReapCall.completed 100 (List.replicate 1024 7),
              ReapCall.completed 5 []].filter (fun y => y.urb = 100)
            ++ [ReapCall.completed 100 [1, 2, 3]]).map
            (fun y => y.data.take (1024 * Endpoint.small.MaxPacketSize))).flatten) ∧
    ∃ full last,
      received 100 (1024 * Endpoint.small.MaxPacketSize)
        (Device.receiving.since (Device.ReadBulk 4 100 Endpoint.small
          { written := [], accept := [] } 0 Device.receiving).2.2) = full ++ [last] ∧
      (∀ p ∈ full, p.length = 1024 * Endpoint.small.MaxPacketSize) ∧
      last.length < 1024 * Endpoint.small.MaxPacketSize ∧
      (Device.ReadBulk 4 100 Endpoint.small
          { written := [], accept := [] } 0 Device.receiving).2.1.written
        = [] ++ (full ++ [last]).flatten ∧
      turns 100
        (Device.receiving.since (Device.ReadBulk 4 100 Endpoint.small
          { written := [], accept := [] } 0 Device.receiving).2.2)
          = (List.replicate (full.length + 1) [true, false]).flatten := by
  have h := ReadBulk_stops_at_short_packet 4 100 Endpoint.small
    { written := [], accept := [] } 0 Device.receiving (by intro l hl; cases hl)
  have hrun := h.2.2
    [ReapCall.completed 100 (List.replicate 1024 7), ReapCall.completed 5 []]
    (ReapCall.completed 100 [1, 2, 3]) [] (by unfold Device.cooperative; decide) rfl
    (by decide) (by decide!) (by decide) (by decide) (by decide)
  exact ⟨h.1 (by decide), hrun, h.2.1 hrun.1⟩

/-- C5.  `Device::ProcessControl` calls the queued closures from the front of the
queue, each with the answer of the next `USBDEVFS_CONTROL` ioctl.  With `k` the
number of closures called: the kernel received exactly the control transfers of
the first `k` closures, in queue order, and the queue afterwards is the queue
before without its first `k` entries.  When the call returns normally, `k` is the
length of the queue (the queue is empty) and no closure threw.  When it throws
`e`, the first `k - 1` closures did not throw, the `k`-th threw `e`, and it is no
longer in the queue, which holds the closures after it, in order and not called. -/
theorem ProcessControl_fifo (d : Device) :
    ∃ k, k ≤ d._controls.length ∧
      d.since (Device.ProcessControl d).2 = (d._controls.take k).map ControlClosure.event ∧
      (Device.ProcessControl d).2._controls = d._controls.drop k ∧
      (match (Device.ProcessControl d).1 with
       | .ok _ => k = d._controls.length ∧ (Device.ProcessControl d).2._controls = [] ∧
           ∀ (i : Nat) (c : ControlClosure), d._controls[i]? = some c →
             c.result (d.controlAnswer i) = .ok ()
       | .error e => 0 < k ∧
           (∀ (i : Nat) (c : ControlClosure), i + 1 < k → d._controls[i]? = some c →
             c.result (d.controlAnswer i) = .ok ()) ∧
           ∃ c, d._controls[k - 1]? = some c ∧
             c.result (d.controlAnswer (k - 1)) = .error e) := by
  obtain ⟨k, hk, h1, h2, -, -, -, -, -, hpre, hres⟩ := ProcessControl_loop_spec d._controls d
  refine ⟨k, hk, since_eq _ _ _ h1, h2, ?_⟩
  have h2' : (Device.ProcessControl d).2._controls = d._controls.drop k := h2
  revert hres
  rw [show Device.ProcessControl.loop d._controls d = Device.ProcessControl d from rfl]
  cases (Device.ProcessControl d).1 with
  | ok v =>
    simp only []
    rintro ⟨rfl, hlast⟩
    refine ⟨rfl, by rw [h2']; simp, ?_⟩
    intro i c hc
    have hi : i < d._controls.length := by
      rcases Nat.lt_or_ge i d._controls.length with h | h
      · exact h
      · rw [List.getElem?_eq_none h] at hc; simp at hc
    by_cases hlt : i + 1 < d._controls.length
    · exact hpre i c hlt hc
    · have : i = d._controls.length - 1 := by omega
      subst this
      exact hlast c hc
  | error e =>
    simp only []
    rintro ⟨hk0, c, hc, he⟩
    exact ⟨hk0, hpre, c, hc, he⟩

/-- An instance of C5: of three queued closures the second throws; two control
transfers reach the kernel, and the third closure stays queued. -/
theorem ProcessControl_fifo_witness :
    (Device.ProcessControl Device.queued).1 = .error (.runtime_error "transaction aborted") ∧
    (Device.ProcessControl Device.queued).2._controls = Device.queued._controls.drop 2 ∧
    Device.queued.since (Device.ProcessControl Device.queued).2
      = (Device.queued._controls.take 2).map ControlClosure.event := by
  obtain ⟨k, -, h1, h2, h3⟩ := ProcessControl_fifo Device.queued
  have hr : (Device.ProcessControl Device.queued).1
      = .error (.runtime_error "transaction aborted") := by decide
  have hq : (Device.ProcessControl Device.queued).2._controls
      = Device.queued._controls.drop 2 := by decide
  have hk : k = 2 := by
    have hlen := congrArg List.length h2
    rw [hq] at hlen
    have h3' : Device.queued._controls.length = 3 := by decide
    simp only [List.length_drop, h3'] at hlen
    rw [hr] at h3
    have := h3.1
    omega
  subst hk
  exact ⟨hr, h2, h1⟩

/-- C6.  Take a call of `Device::Submit` whose `USBDEVFS_SUBMITURB` ioctl succeeded.
When it throws `e`, the kernel received, after the submission, some successful
reapings, then the `Reap` call that threw `e`, and last one `USBDEVFS_DISCARDURB`
for the submitted URB: the URB is discarded exactly once, before the caller sees the
error, and the error is the one `Reap` threw.  When it returns normally nothing is
discarded. -/
theorem Submit_discards_on_error (urb : Urb) (timeout : Int) (d : Device)
    (h : 0 ≤ d.submitResults.headD 0) :
    match (Device.Submit urb timeout d).1 with
    | .error e =>
        discarded (d.since (Device.Submit urb timeout d).2) = [urb.Addr] ∧
        ∃ pre : List (Nat × List Nat),
          d.since (Device.Submit urb timeout d).2 =
            Event.SUBMITURB urb.Addr urb.KernelUrb urb.payload ::
              (pre.map Event.reaped ++ [Event.REAPFAILED e, Event.DISCARDURB urb.Addr])
    | .ok _ => discarded (d.since (Device.Submit urb timeout d).2) = [] := by
  obtain ⟨evs, hlog, -, -, -, hm⟩ := Submit_spec urb timeout d
  rw [since_eq _ _ _ hlog]
  revert hm
  cases (Device.Submit urb timeout d).1 with
  | ok u =>
    simp only []
    rintro ⟨-, pre, data, -, -, rfl, -⟩
    rw [show Event.SUBMITURB urb.Addr urb.KernelUrb urb.payload ::
        (pre.map Event.reaped ++ [Event.REAPURB urb.Addr data])
      = [Event.SUBMITURB urb.Addr urb.KernelUrb urb.payload] ++
        (pre.map Event.reaped ++ [Event.REAPURB urb.Addr data]) from rfl]
    simp [discarded, List.filterMap_append, Event.reaped]
  | error e =>
    simp only []
    rintro (⟨hneg, -⟩ | ⟨-, pre, -, rfl, -⟩)
    · omega
    · refine ⟨?_, pre, rfl⟩
      rw [show Event.SUBMITURB urb.Addr urb.KernelUrb urb.payload ::
          (pre.map Event.reaped ++ [Event.REAPFAILED e, Event.DISCARDURB urb.Addr])
        = [Event.SUBMITURB urb.Addr urb.KernelUrb urb.payload] ++
          (pre.map Event.reaped ++ [Event.REAPFAILED e, Event.DISCARDURB urb.Addr]) from rfl]
      simp [discarded, List.filterMap_append, Event.reaped]

/-- An instance of C6: the kernel accepts the URB and never completes it; `Submit`
throws the `TimeoutException` of `Reap` and the URB at address 100 is discarded. -/
theorem Submit_discards_on_error_witness :
    (Device.Submit Urb.small 1000 Device.idle).1
        = .error (.TimeoutException "timeout reaping usb urb") ∧
      discarded (Device.idle.since (Device.Submit Urb.small 1000 Device.idle).2) = [100] := by
  have h := Submit_discards_on_error Urb.small 1000 Device.idle (by decide)
  have hr : (Device.Submit Urb.small 1000 Device.idle).1
      = .error (.TimeoutException "timeout reaping usb urb") := by decide
  rw [hr] at h
  exact ⟨hr, h.1⟩

/-- C7.  `Device::WriteControl` leaves the kernel's log as it is and appends one
closure to the end of the control queue; nothing else changes.  Whenever that
closure is called the kernel receives its control transfer, and then: when the
ioctl succeeds the closure throws "transaction aborted" if
`interruptCurrentTransaction` is set and returns if it is not; when the ioctl fails
the closure throws `TimeoutException` if `errno` is `EAGAIN` and `usb::Exception`
otherwise, whatever the flag. -/
theorem WriteControl_enqueues_closure (type req value index : Nat) (data : List Nat)
    (interrupt : Bool) (timeout : Int) (d : Device) :
    (Device.WriteControl type req value index data interrupt timeout d).log = d.log ∧
    ∃ c : ControlClosure,
      Device.WriteControl type req value index data interrupt timeout d
        = { d with _controls := d._controls ++ [c] } ∧
      c.fd = d._fd ∧ c.interruptCurrentTransaction = interrupt ∧
      c.ctrl = { bRequestType := type, bRequest := req, wValue := value, wIndex := index,
                 wLength := data.length % 2 ^ 16, timeout := (timeout % 2 ^ 32).toNat,
                 data := data } ∧
      ∀ d' : Device,
        (c.call d').2.log = d'.log ++ [Event.CONTROL c.fd c.ctrl] ∧
        (0 ≤ (d'.controlAnswer 0).r → interrupt = true →
          (c.call d').1 = .error (.runtime_error "transaction aborted")) ∧
        (0 ≤ (d'.controlAnswer 0).r → interrupt = false → (c.call d').1 = .ok ()) ∧
        ((d'.controlAnswer 0).r < 0 → (d'.controlAnswer 0).errno = EAGAIN →
          (c.call d').1 = .error (.TimeoutException "timeout sending control transfer")) ∧
        ((d'.controlAnswer 0).r < 0 → (d'.controlAnswer 0).errno ≠ EAGAIN →
          (c.call d').1 = .error (.Exception "ioctl")) := by
  refine ⟨rfl, _, rfl, rfl, rfl, rfl, ?_⟩
  intro d'
  refine ⟨rfl, ?_, ?_, ?_, ?_⟩
  · intro h hi
    simp only [ControlClosure.call, controlAnswer_zero, ControlClosure.result]
    rw [if_pos h, if_pos hi]
  · intro h hi
    simp only [ControlClosure.call, controlAnswer_zero, ControlClosure.result]
    rw [if_pos h, hi]; rfl
  · intro h he
    simp only [ControlClosure.call, controlAnswer_zero, ControlClosure.result]
    rw [if_neg (not_le.2 h), if_pos he]
  · intro h he
    simp only [ControlClosure.call, controlAnswer_zero, ControlClosure.result]
    rw [if_neg (not_le.2 h), if_neg he]

/-- An instance of C7: the closure queued for an interrupting control transfer, called
with an ioctl that succeeds, that fails with `EAGAIN` (11) and that fails with
`ENODEV` (19). -/
theorem WriteControl_enqueues_closure_witness :
    ∃ c : ControlClosure,
      Device.WriteControl 33 100 0 0 [1, 64, 7, 0, 0, 0] true 1000 Device.idle
        = { Device.idle with _controls := Device.idle._controls ++ [c] } ∧
      (c.call Device.idle).1 = .error (.runtime_error "transaction aborted") ∧
      (c.call { Device.idle with controlResults := [{ r := -1, errno := 11 }] }).1
        = .error (.TimeoutException "timeout sending control transfer") ∧
      (c.call { Device.idle with controlResults := [{ r := -1, errno := 19 }] }).1
        = .error (.Exception "ioctl") := by
  obtain ⟨-, c, h1, -, -, -, h⟩ :=
    WriteControl_enqueues_closure 33 100 0 0 [1, 64, 7, 0, 0, 0] true 1000 Device.idle
  exact ⟨c, h1, (h Device.idle).2.1 (by decide) rfl,
    (h { Device.idle with controlResults := [{ r := -1, errno := 11 }] }).2.2.2.1
      (by decide) (by decide),
    (h { Device.idle with controlResults := [{ r := -1, errno := 19 }] }).2.2.2.2
      (by decide) (by decide)⟩

/-- C8, as stated, fails.  A bulk write of 1024 bytes on an endpoint of
max-packet-size 1 submits a URB of 1024 bytes with the flag clear and reaps it; the
queued control transfer is then executed; the next URB, the first one submitted
after the control transfer, has `flags = 4`: `USBDEVFS_URB_BULK_CONTINUATION` is set,
not clear. -/
theorem WriteBulk_continuation_kept_after_control :
    (Device.WriteBulk 2 100 Endpoint.small { data := List.replicate 1024 7, limits := [] } 0
      Device.interleaved).1 = some (.ok ()) ∧
    Device.interleaved.since (Device.WriteBulk 2 100 Endpoint.small
      { data := List.replicate 1024 7, limits := [] } 0 Device.interleaved).2.2 =
      [Event.SUBMITURB 100
         { type := 3, endpoint := 1, flags := 0, buffer_length := 1024, actual_length := 0 }
         (List.replicate 1024 7),
       Event.REAPURB 100 [],
       Event.CONTROL 3
         { bRequestType := 33, bRequest := 100, wValue := 0, wIndex := 0, wLength := 0,
           timeout := 1000, data := [] },
       Event.SUBMITURB 100
         { type := 3, endpoint := 1, flags := 4, buffer_length := 0, actual_length := 0 } [],
       Event.REAPURB 100 []] ∧
    usbdevfs_urb.continuation
      { type := 3, endpoint := 1, flags := 4, buffer_length := 0, actual_length := 0 } = true := by
  decide!

/-- C8, amended.  Within a bulk transfer (`Device::WriteBulk` or `Device::ReadBulk`),
every URB submitted after a queued control transfer was executed, and so the first
one submitted after it, has the flag `USBDEVFS_URB_BULK_CONTINUATION` set: a control
transfer does not reset the flag. -/
theorem bulk_continuation_set_after_control (fuel addr : Nat) (ep : Endpoint)
    (inputStream : InputStream) (outputStream : OutputStream) (timeout : Int) (d : Device) :
    (∀ (pre post : List Event) (fd : Int) (ctrl : usbdevfs_ctrltransfer),
      d.since (Device.WriteBulk fuel addr ep inputStream timeout d).2.2
        = pre ++ Event.CONTROL fd ctrl :: post →
      ∀ v ∈ submitted post, v.1.continuation = true) ∧
    (∀ (pre post : List Event) (fd : Int) (ctrl : usbdevfs_ctrltransfer),
      d.since (Device.ReadBulk fuel addr ep outputStream timeout d).2.2
        = pre ++ Event.CONTROL fd ctrl :: post →
      ∀ v ∈ submitted post, v.1.continuation = true) := by
  constructor
  · intro pre post fd ctrl h
    obtain ⟨evs, hlog, hs⟩ := WriteBulk_loop_shape timeout
      (Urb.new addr d._fd USBDEVFS_URB_TYPE_BULK ep).Buffer.length fuel
      (Urb.new addr d._fd USBDEVFS_URB_TYPE_BULK ep) false inputStream d
    rw [Device.WriteBulk, since_eq _ _ _ hlog] at h
    rcases hs with ⟨rfl, -⟩ | ⟨k, p, tail, rfl, -, htail⟩
    · simp at h
    · exact after_control_set _ tail (by simp) htail pre post fd ctrl h
  · intro pre post fd ctrl h
    obtain ⟨evs, hlog, hs⟩ := ReadBulk_loop_shape timeout
      (Urb.new addr d._fd USBDEVFS_URB_TYPE_BULK ep).Buffer.length fuel
      (Urb.new addr d._fd USBDEVFS_URB_TYPE_BULK ep) false outputStream d
    rw [Device.ReadBulk, since_eq _ _ _ hlog] at h
    rcases hs with ⟨rfl, -⟩ | ⟨k, p, tail, rfl, -, htail⟩
    · simp at h
    · exact after_control_set _ tail (by simp) htail pre post fd ctrl h

/-- An instance of the amended C8, for a bulk write and for a bulk read during which
one queued control transfer is executed after the first URB. -/
theorem bulk_continuation_set_after_control_witness :
    (∀ v ∈ submitted
        [Event.SUBMITURB 100
           { type := 3, endpoint := 1, flags := 4, buffer_length := 0, actual_length := 0 } [],
         Event.REAPURB 100 []],
      v.1.continuation = true) ∧
    (∀ v ∈ submitted
        [Event.SUBMITURB 100
           { type := 3, endpoint := 1, flags := 4, buffer_length := 1024, actual_length := 1024 }
           (List.replicate 1024 7),
         Event.REAPURB 5 [], Event.REAPURB 100 [1, 2, 3]],
      v.1.continuation = true) :=
  ⟨(bulk_continuation_set_after_control 2 100 Endpoint.small
      { data := List.replicate 1024 7, limits := [] } { written := [], accept := [] } 0
      Device.interleaved).1
      [Event.SUBMITURB 100
         { type := 3, endpoint := 1, flags := 0, buffer_length := 1024, actual_length := 0 }
         (List.replicate 1024 7),
       Event.REAPURB 100 []] _ 3
      { bRequestType := 33, bRequest := 100, wValue := 0, wIndex := 0, wLength := 0,
        timeout := 1000, data := [] } (by decide!),
   (bulk_continuation_set_after_control 2 100 Endpoint.small
      { data := [], limits := [] } { written := [], accept := [] } 0
      Device.interleavedReceiving).2
      [Event.SUBMITURB 100
         { type := 3, endpoint := 1, flags := 0, buffer_length := 1024, actual_length := 0 }
         (List.replicate 1024 0),
       Event.REAPURB 100 (List.replicate 1024 7)] _ 3
      { bRequestType := 33, bRequest := 100, wValue := 0, wIndex := 0, wLength := 0,
        timeout := 1000, data := [] } (by decide!)⟩

/-- C9.  A new `Urb` of type bulk has a buffer of `1024 * m` bytes, a new `Urb` of any
other type (control, interrupt, isochronous) a buffer of `m` bytes, where `m` is the
max-packet-size of its endpoint; `buffer_length` of its kernel URB is the size of
its buffer. -/
theorem Urb_new_capacity (addr : Nat) (fd : Int) (type : Nat) (ep : Endpoint) :
    (Urb.new addr fd type ep).Buffer.length
      = (if type = USBDEVFS_URB_TYPE_BULK then 1024 * ep.MaxPacketSize
         else 1 * ep.MaxPacketSize) ∧
    (Urb.new addr fd type ep).KernelUrb.buffer_length = (Urb.new addr fd type ep).Buffer.length ∧
    (Urb.new addr fd USBDEVFS_URB_TYPE_BULK ep).Buffer.length = 1024 * ep.MaxPacketSize ∧
    (Urb.new addr fd USBDEVFS_URB_TYPE_CONTROL ep).Buffer.length = 1 * ep.MaxPacketSize ∧
    (Urb.new addr fd USBDEVFS_URB_TYPE_INTERRUPT ep).Buffer.length = 1 * ep.MaxPacketSize ∧
    (Urb.new addr fd USBDEVFS_URB_TYPE_ISO ep).Buffer.length = 1 * ep.MaxPacketSize := by
  refine ⟨?_, rfl, ?_, ?_, ?_, ?_⟩
  · by_cases h : type = USBDEVFS_URB_TYPE_BULK <;> simp [Urb.new, Urb.PacketsPerBuffer, h]
  all_goals
    simp [Urb.new, Urb.PacketsPerBuffer, USBDEVFS_URB_TYPE_BULK, USBDEVFS_URB_TYPE_CONTROL,
      USBDEVFS_URB_TYPE_INTERRUPT, USBDEVFS_URB_TYPE_ISO]

/-- C10.  Take a call of `Device::Submit` whose `USBDEVFS_SUBMITURB` ioctl succeeded.
The map `_urbs` after the call is the map before it, with the submitted URB
inserted, without the entries whose pointer a `Reap` call of this `Submit`
returned: a reaped pointer that is in the map is erased, one that is not changes
nothing.  When the call returns normally the entry of the submitted URB is no
longer in the map; when it throws, the entry of the submitted URB is still
there. -/
theorem Submit_pending_map (urb : Urb) (timeout : Int) (d : Device)
    (h : 0 ≤ d.submitResults.headD 0) :
    (Device.Submit urb timeout d).2._urbs
      = (inserted d._urbs urb.Addr).filter
          (fun k => k ∉ reapedAddrs (d.since (Device.Submit urb timeout d).2)) ∧
    match (Device.Submit urb timeout d).1 with
    | .ok _ => urb.Addr ∉ (Device.Submit urb timeout d).2._urbs
    | .error _ => urb.Addr ∈ (Device.Submit urb timeout d).2._urbs := by
  obtain ⟨evs, hlog, -, -, -, hm⟩ := Submit_spec urb timeout d
  rw [since_eq _ _ _ hlog]
  revert hm
  cases (Device.Submit urb timeout d).1 with
  | ok u =>
    simp only []
    rintro ⟨-, pre, data, -, -, rfl, hu⟩
    have hr : reapedAddrs (Event.SUBMITURB urb.Addr urb.KernelUrb urb.payload ::
        (pre.map Event.reaped ++ [Event.REAPURB urb.Addr data]))
        = pre.map Prod.fst ++ [urb.Addr] := by
      rw [show Event.SUBMITURB urb.Addr urb.KernelUrb urb.payload ::
          (pre.map Event.reaped ++ [Event.REAPURB urb.Addr data])
        = [] ++ Event.SUBMITURB urb.Addr urb.KernelUrb urb.payload ::
          (pre.map Event.reaped ++ [Event.REAPURB urb.Addr data]) from rfl]
      have := reapedAddrs_reaped pre [Event.REAPURB urb.Addr data]
      simp only [reapedAddrs] at this ⊢
      simp [List.filterMap_cons, this]
    rw [hr, hu]
    refine ⟨?_, by simp [List.mem_filter]⟩
    apply List.filter_congr
    intro k _
    by_cases h1 : k ∈ List.map Prod.fst pre <;> by_cases h2 : k = urb.Addr <;>
      simp [h1, h2]
  | error e =>
    simp only []
    rintro (⟨hneg, -⟩ | ⟨-, pre, hpre, rfl, hu⟩)
    · omega
    · have hr : reapedAddrs (Event.SUBMITURB urb.Addr urb.KernelUrb urb.payload ::
          (pre.map Event.reaped ++ [Event.REAPFAILED e, Event.DISCARDURB urb.Addr]))
          = pre.map Prod.fst := by
        have := reapedAddrs_reaped pre [Event.REAPFAILED e, Event.DISCARDURB urb.Addr]
        simp only [reapedAddrs] at this ⊢
        simp [List.filterMap_cons, this]
      rw [hr, hu]
      refine ⟨by simp, ?_⟩
      simp only [List.mem_filter, mem_inserted, true_and, and_true, decide_eq_true_eq]
      intro hmem
      obtain ⟨p, hp, hpa⟩ := List.mem_map.1 hmem
      exact hpre p hp hpa

/-- An instance of C10: the URBs at 5 and 6 are pending; while waiting for its own URB
`Submit` reaps the one at 5, which is erased, and an unknown one at 9, which is
skipped; the map afterwards holds 6 alone. -/
theorem Submit_pending_map_witness :
    (Device.Submit Urb.small 1000 Device.busy).1 = .ok (Urb.small.complete []) ∧
    (Device.Submit Urb.small 1000 Device.busy).2._urbs = [6] ∧
    (Device.Submit Urb.small 1000 Device.busy).2._urbs
      = (inserted Device.busy._urbs Urb.small.Addr).filter
          (fun k => k ∉ reapedAddrs
            (Device.busy.since (Device.Submit Urb.small 1000 Device.busy).2)) :=
  ⟨by decide, by decide,
    (Submit_pending_map Urb.small 1000 Device.busy (by decide)).1⟩

end mtp.usb
